import Mathlib

/-!
Verification of the cleanproto code generator against its specification.

The development shallowly embeds the parts of the repository that the
claims refer to:

* the wire-format primitives of `google.golang.org/protobuf/encoding/protowire`
  that the embedded runtime (`utilExtra` in
  `internal/generate/go/generator.go`) calls into;
* the runtime helper functions shipped verbatim in the `utilExtra` constant
  of `internal/generate/go/generator.go` (AppendInt32Field, AppendStringField,
  AppendMap, ConsumeMapEntry, ConsumeRepeatedCompact, EncodeTimestamp, ...);
* the per-field encode/decode structure produced by `buildGoEncodeLines` and
  `buildGoDecodeCases` for representative messages, and by the JS generator
  (`jsDecodePackedField`) for the packed-parity claim;
* the name manglers `GoName` / `JsName` / `splitParts` / `title` of the ir
  package;
* the native-type validation of `internal/parser/parser.go`
  (`validateNativeTypes`, `isSupportedGoType`, `isSupportedJSType`).

The base consume primitives (ConsumeTag, ConsumeBytes, ConsumeVarInt32, ...,
SkipFieldValue) live in `protowireu.go`, which the generator reads from
outside the repository; they are modelled from the specification (and from
the decode-loop shape shown in the repository README). Machine integers are
modelled as `Nat` / `Int` with explicit reductions modulo 2^32 / 2^64 where
the Go code truncates. Byte strings are `List Nat` with entries below 256.
Go maps are modelled as association lists; assignment replaces an existing
key or appends a fresh binding.
-/

namespace Cleanproto

/-- Byte strings of the wire format, one `Nat` per byte. -/
abbrev Bytes := List Nat

/-- Structural worker for the varint encoder; ten division steps cover
every unsigned 64-bit value, which is all `protowire.AppendVarint` takes. -/
def varintEncAux : Nat → Nat → Bytes
  | 0, v => [v % 128]
  | fuel + 1, v => if v < 128 then [v] else (v % 128 + 128) :: varintEncAux fuel (v / 128)

/-- Base-128 varint encoding of an unsigned 64-bit value, least significant
group first, as produced by `protowire.AppendVarint`. -/
def varintEnc (v : Nat) : Bytes :=
  varintEncAux 10 v

/-- Modelled from the spec: varint decoding as done by
`protowire.ConsumeVarint` (called through the missing `protowireu.go`
runtime): at most ten bytes are consumed and the tenth byte must be 0 or 1,
otherwise the parse fails; a truncated varint fails. The first component of
the result is the decoded value, the second the remaining input. -/
def varintDecAux : Nat → Bytes → Option (Nat × Bytes)
  | _, [] => none
  | 0, _ :: _ => none
  | 1, c :: rest => if c ≤ 1 then some (c, rest) else none
  | k + 2, c :: rest =>
    if c < 128 then some (c, rest)
    else
      match varintDecAux (k + 1) rest with
      | some (v, r) => some (c % 128 + 128 * v, r)
      | none => none

/-- Varint decoding with the 10-byte limit of 64-bit protobuf varints. -/
def varintDec (b : Bytes) : Option (Nat × Bytes) :=
  varintDecAux 10 b

/-- Two's-complement reading of a 64-bit truncated value as an `Int`,
matching a Go conversion to `int64`. -/
def toInt64 (v : Nat) : Int :=
  let w := v % 18446744073709551616
  if w < 9223372036854775808 then (w : Int) else (w : Int) - 18446744073709551616

/-- Two's-complement reading of a 32-bit truncated value as an `Int`,
matching a Go conversion to `int32` from a 64-bit varint value. -/
def toInt32 (v : Nat) : Int :=
  let w := v % 4294967296
  if w < 2147483648 then (w : Int) else (w : Int) - 4294967296

/-- Go conversion `uint32(v)` of a signed 32-bit value. -/
def toUint32 (i : Int) : Nat :=
  (i % 4294967296).toNat

/-- Go conversion `uint64(v)` of a signed 64-bit value. -/
def toUint64 (i : Int) : Nat :=
  (i % 18446744073709551616).toNat

/-- Tag bytes for field number `num` and wire type `typ`, as emitted by
`protowire.AppendTag`: the varint of `num*8 + typ`. -/
def tagEnc (num typ : Nat) : Bytes :=
  varintEnc (num * 8 + typ)

/-- Length-prefixed byte block as emitted by `protowire.AppendBytes`. -/
def bytesEnc (v : Bytes) : Bytes :=
  varintEnc v.length ++ v

/-- Little-endian four-byte block of `protowire.AppendFixed32`. -/
def fixed32Enc (v : Nat) : Bytes :=
  [v % 256, v / 256 % 256, v / 65536 % 256, v / 16777216 % 256]

/-- Little-endian eight-byte block of `protowire.AppendFixed64`. -/
def fixed64Enc (v : Nat) : Bytes :=
  fixed32Enc (v % 4294967296) ++ fixed32Enc (v / 4294967296)

/-- Protobuf wire types as used by `protowire`: 0 varint, 1 fixed64,
2 length delimited, 5 fixed32. -/
def wtVarint : Nat := 0

/-- Wire type of eight-byte fixed values. -/
def wtFixed64 : Nat := 1

/-- Wire type of length-delimited values. -/
def wtBytes : Nat := 2

/-- Wire type of four-byte fixed values. -/
def wtFixed32 : Nat := 5

end Cleanproto

namespace Cleanproto.Names

/-- Separator predicate of `splitParts` in the ir package: `_` and `-`. -/
def isSep (c : Char) : Bool :=
  c = '_' || c = '-'

/-- ASCII lowering of one character; the Go source calls
`strings.ToLower`, restricted here to the ASCII inputs the claims use. -/
def asciiLower (c : Char) : Char :=
  if 'A' ≤ c ∧ c ≤ 'Z' then Char.ofNat (c.toNat + 32) else c

/-- ASCII raising of one character; the Go source calls
`unicode.ToUpper`, restricted here to the ASCII inputs the claims use. -/
def asciiUpper (c : Char) : Char :=
  if 'a' ≤ c ∧ c ≤ 'z' then Char.ofNat (c.toNat - 32) else c

/-- Splitting on runs of separators with empty fields dropped, the
behaviour of `strings.FieldsFunc` used by `splitParts`. -/
def fieldsFunc : List Char → List (List Char)
  | [] => []
  | c :: rest =>
    if isSep c then fieldsFunc rest
    else
      match fieldsFunc rest with
      | [] => [[c]]
      | p :: ps => if isSep rest.headI then [c] :: p :: ps else (c :: p) :: ps

/-- The `splitParts` helper of the ir package: when the name contains a
separator it is split into fields that are each lowercased; otherwise the
name is returned unchanged as a single part. -/
def splitParts (name : List Char) : List (List Char) :=
  if name = [] then []
  else if name.any (fun c => isSep c) then
    (fieldsFunc name).map (fun p => p.map asciiLower)
  else [name]

/-- The `title` helper of the ir package: capitalise the first rune. -/
def title : List Char → List Char
  | [] => []
  | c :: rest => asciiUpper c :: rest

/-- The `GoName` mangler of the ir package: split into parts, turn a last
part that is exactly `id` into `ID`, and title-case every other part. -/
def GoName (protoName : String) : String :=
  let parts := splitParts protoName.data
  if parts = [] then ""
  else
    let n := parts.length
    let mapped := parts.mapIdx fun i p =>
      if i = n - 1 ∧ p = ['i', 'd'] then ['I', 'D'] else title p
    ⟨mapped.flatten⟩

/-- The `JsName` mangler of the ir package: lowercase the first part and
title-case the remaining parts. -/
def JsName (protoName : String) : String :=
  let parts := splitParts protoName.data
  if parts = [] then ""
  else
    let mapped := parts.mapIdx fun i p =>
      if i = 0 then p.map asciiLower else title p
    ⟨mapped.flatten⟩

end Cleanproto.Names

namespace Cleanproto

/-- Modelled from the spec: `ConsumeTag` of the missing `protowireu.go`
runtime reads one varint and splits it into the field number (high bits)
and the wire type (low three bits). -/
def consumeTag (b : Bytes) : Option (Nat × Nat × Bytes) :=
  match varintDec b with
  | some (t, r) => some (t / 8, t % 8, r)
  | none => none

/-- Modelled from the spec: `ConsumeBytes` of the missing `protowireu.go`
runtime checks the length-delimited wire type, reads a length varint and
returns that many payload bytes; a length prefix beyond the buffer fails. -/
def consumeLenPrefixed (b : Bytes) (typ : Nat) : Option (Bytes × Bytes) :=
  if typ ≠ wtBytes then none
  else
    match varintDec b with
    | some (len, r) => if len ≤ r.length then some (r.take len, r.drop len) else none
    | none => none

/-- Modelled from the spec: `ConsumeString`, identical wire handling to
`ConsumeBytes` with the payload read as a string (a byte list here). -/
def consumeString (b : Bytes) (typ : Nat) : Option (Bytes × Bytes) :=
  consumeLenPrefixed b typ

/-- Modelled from the spec: `ConsumeMessage` consumes a length-delimited
sub-message block, as shown by the generated decoders in the README. -/
def consumeMessage (b : Bytes) (typ : Nat) : Option (Bytes × Bytes) :=
  consumeLenPrefixed b typ

/-- Modelled from the spec: `ConsumeVarInt32` checks the varint wire type,
reads a varint and truncates it to a signed 32-bit value. -/
def consumeVarInt32 (b : Bytes) (typ : Nat) : Option (Int × Bytes) :=
  if typ ≠ wtVarint then none
  else
    match varintDec b with
    | some (v, r) => some (toInt32 v, r)
    | none => none

/-- Modelled from the spec: `ConsumeVarInt64` checks the varint wire type,
reads a varint and reinterprets it as a signed 64-bit value. -/
def consumeVarInt64 (b : Bytes) (typ : Nat) : Option (Int × Bytes) :=
  if typ ≠ wtVarint then none
  else
    match varintDec b with
    | some (v, r) => some (toInt64 v, r)
    | none => none

/-- Modelled from the spec: `ConsumeBool` checks the varint wire type and
reads a varint, nonzero meaning true. -/
def consumeBool (b : Bytes) (typ : Nat) : Option (Bool × Bytes) :=
  if typ ≠ wtVarint then none
  else
    match varintDec b with
    | some (v, r) => some (v ≠ 0, r)
    | none => none

/-- Modelled from the spec: `ConsumeFixedUint32` checks the four-byte wire
type and reads four little-endian bytes. -/
def consumeFixed32 (b : Bytes) (typ : Nat) : Option (Nat × Bytes) :=
  if typ ≠ wtFixed32 then none
  else
    match b with
    | b0 :: b1 :: b2 :: b3 :: r => some (b0 + 256 * b1 + 65536 * b2 + 16777216 * b3, r)
    | _ => none

/-- Modelled from the spec: `ConsumeFixedUint64` checks the eight-byte wire
type and reads eight little-endian bytes. -/
def consumeFixed64 (b : Bytes) (typ : Nat) : Option (Nat × Bytes) :=
  if typ ≠ wtFixed64 then none
  else
    match b with
    | b0 :: b1 :: b2 :: b3 :: b4 :: b5 :: b6 :: b7 :: r =>
      some (b0 + 256 * b1 + 65536 * b2 + 16777216 * b3 + 4294967296 * (b4 + 256 * b5 + 65536 * b6 + 16777216 * b7), r)
    | _ => none

/-- Modelled from the spec: `SkipFieldValue` skips one field value using
the wire type from the tag: a varint, eight bytes, a length-delimited
block, or four bytes; any other wire type is a decode error. -/
def skipFieldValue (b : Bytes) (typ : Nat) : Option Bytes :=
  if typ = wtVarint then
    match varintDec b with
    | some (_, r) => some r
    | none => none
  else if typ = wtFixed64 then
    if 8 ≤ b.length then some (b.drop 8) else none
  else if typ = wtBytes then
    match varintDec b with
    | some (len, r) => if len ≤ r.length then some (r.drop len) else none
    | none => none
  else if typ = wtFixed32 then
    if 4 ≤ b.length then some (b.drop 4) else none
  else none

end Cleanproto

namespace Cleanproto.Util

open Cleanproto

/-- The `AppendVarIntField` helper of the embedded Go runtime: nothing for
value zero, otherwise a varint-typed tag followed by the value varint. -/
def AppendVarIntField (b : Bytes) (v : Nat) (num : Nat) : Bytes :=
  if v = 0 then b else b ++ tagEnc num wtVarint ++ varintEnc v

/-- The `AppendStringField` helper: nothing for the empty string, otherwise
a length-delimited tag and the length-prefixed bytes of the string. -/
def AppendStringField (b : Bytes) (v : Bytes) (num : Nat) : Bytes :=
  if v = [] then b else b ++ tagEnc num wtBytes ++ bytesEnc v

/-- The `AppendBytesField` helper: nothing for an empty byte slice,
otherwise a length-delimited tag and the length-prefixed payload. -/
def AppendBytesField (b : Bytes) (v : Bytes) (num : Nat) : Bytes :=
  if v.length = 0 then b else b ++ tagEnc num wtBytes ++ bytesEnc v

/-- The `AppendBoolField` helper: nothing for false, otherwise a
varint-typed tag followed by the varint 1. -/
def AppendBoolField (b : Bytes) (v : Bool) (num : Nat) : Bytes :=
  if !v then b else b ++ tagEnc num wtVarint ++ varintEnc 1

/-- The `AppendInt32Field` helper: nothing for zero, otherwise a
varint-typed tag and the varint of `uint64(uint32(v))`. -/
def AppendInt32Field (b : Bytes) (v : Int) (num : Nat) : Bytes :=
  if v = 0 then b else b ++ tagEnc num wtVarint ++ varintEnc (toUint32 v)

/-- The `AppendInt64Field` helper: nothing for zero, otherwise a
varint-typed tag and the varint of `uint64(v)`. -/
def AppendInt64Field (b : Bytes) (v : Int) (num : Nat) : Bytes :=
  if v = 0 then b else b ++ tagEnc num wtVarint ++ varintEnc (toUint64 v)

/-- The `AppendUint32Field` helper: nothing for zero, otherwise a
varint-typed tag and the value varint. -/
def AppendUint32Field (b : Bytes) (v : Nat) (num : Nat) : Bytes :=
  if v = 0 then b else b ++ tagEnc num wtVarint ++ varintEnc v

/-- The `AppendUint64Field` helper: nothing for zero, otherwise a
varint-typed tag and the value varint. -/
def AppendUint64Field (b : Bytes) (v : Nat) (num : Nat) : Bytes :=
  if v = 0 then b else b ++ tagEnc num wtVarint ++ varintEnc v

/-- The zigzag reshaping of `protowire.EncodeZigZag` on 64-bit values. -/
def zigzag (v : Int) : Nat :=
  if v < 0 then (2 * (-v) - 1).toNat % 18446744073709551616 else (2 * v).toNat % 18446744073709551616

/-- The `AppendSint32Field` helper: nothing for zero, otherwise a
varint-typed tag and the zigzag varint of the value. -/
def AppendSint32Field (b : Bytes) (v : Int) (num : Nat) : Bytes :=
  if v = 0 then b else b ++ tagEnc num wtVarint ++ varintEnc (zigzag v)

/-- The `AppendSint64Field` helper: nothing for zero, otherwise a
varint-typed tag and the zigzag varint of the value. -/
def AppendSint64Field (b : Bytes) (v : Int) (num : Nat) : Bytes :=
  if v = 0 then b else b ++ tagEnc num wtVarint ++ varintEnc (zigzag v)

/-- The `AppendFixed32Field` helper: nothing for zero, otherwise a
fixed32-typed tag and four little-endian bytes. -/
def AppendFixed32Field (b : Bytes) (v : Nat) (num : Nat) : Bytes :=
  if v = 0 then b else b ++ tagEnc num wtFixed32 ++ fixed32Enc v

/-- The `AppendFixed64Field` helper: nothing for zero, otherwise a
fixed64-typed tag and eight little-endian bytes. -/
def AppendFixed64Field (b : Bytes) (v : Nat) (num : Nat) : Bytes :=
  if v = 0 then b else b ++ tagEnc num wtFixed64 ++ fixed64Enc v

/-- The `AppendSfixed32Field` helper: nothing for zero, otherwise a
fixed32-typed tag and the four bytes of `uint32(v)`. -/
def AppendSfixed32Field (b : Bytes) (v : Int) (num : Nat) : Bytes :=
  if v = 0 then b else b ++ tagEnc num wtFixed32 ++ fixed32Enc (toUint32 v)

/-- The `AppendSfixed64Field` helper: nothing for zero, otherwise a
fixed64-typed tag and the eight bytes of `uint64(v)`. -/
def AppendSfixed64Field (b : Bytes) (v : Int) (num : Nat) : Bytes :=
  if v = 0 then b else b ++ tagEnc num wtFixed64 ++ fixed64Enc (toUint64 v)

/-- Go float equality with zero on IEEE-754 single bit patterns: both
signed zeros compare equal to zero, everything else does not. Float values
are carried as their bit patterns in this embedding. -/
def f32IsZero (bits : Nat) : Bool :=
  bits = 0 || bits = 2147483648

/-- Go float equality with zero on IEEE-754 double bit patterns. -/
def f64IsZero (bits : Nat) : Bool :=
  bits = 0 || bits = 9223372036854775808

/-- The `AppendFloat32Field` helper on bit patterns: nothing when the value
compares equal to zero, otherwise a fixed32-typed tag and the bits. -/
def AppendFloat32Field (b : Bytes) (bits : Nat) (num : Nat) : Bytes :=
  if f32IsZero bits then b else b ++ tagEnc num wtFixed32 ++ fixed32Enc bits

/-- The `AppendFloat64Field` helper on bit patterns: nothing when the value
compares equal to zero, otherwise a fixed64-typed tag and the bits. -/
def AppendFloat64Field (b : Bytes) (bits : Nat) (num : Nat) : Bytes :=
  if f64IsZero bits then b else b ++ tagEnc num wtFixed64 ++ fixed64Enc bits

/-- The `AppendInt32FieldOpt` helper: nothing for a nil pointer or a
pointed-to zero, otherwise as `AppendInt32Field`. -/
def AppendInt32FieldOpt (b : Bytes) (v : Option Int) (num : Nat) : Bytes :=
  match v with
  | none => b
  | some w => if w = 0 then b else b ++ tagEnc num wtVarint ++ varintEnc (toUint32 w)

/-- The `AppendInt32Compact` helper: the bare varint of
`uint64(uint32(v))`, no tag. -/
def AppendInt32Compact (b : Bytes) (v : Int) : Bytes :=
  b ++ varintEnc (toUint32 v)

/-- The `AppendRepeatedCompact` helper: concatenate the compact encodings
of all elements, and emit nothing when that payload is empty, otherwise a
length-delimited tag and the length-prefixed payload. -/
def AppendRepeatedCompact (b : Bytes) (values : List α) (num : Nat)
    (appendValue : Bytes → α → Bytes) : Bytes :=
  let packed := values.foldl appendValue []
  if packed.length = 0 then b else b ++ tagEnc num wtBytes ++ bytesEnc packed

/-- Go map assignment on the association-list model: replace the binding
of an existing key, otherwise append the new binding. -/
def mapInsert [DecidableEq K] (m : List (K × V)) (k : K) (v : V) : List (K × V) :=
  if m.any (fun p => p.1 = k) then
    m.map (fun p => if p.1 = k then (k, v) else p)
  else m ++ [(k, v)]

/-- The `AppendMap` helper: for every binding in iteration order, build the
entry from the two decorated appenders (field 1 the key, field 2 the
value) and emit a length-delimited tag with the length-prefixed entry. -/
def AppendMap (b : Bytes) (m : List (K × V)) (num : Nat)
    (appendKey : Bytes → K → Bytes) (appendValue : Bytes → V → Bytes) : Bytes :=
  m.foldl (fun acc kv =>
    acc ++ tagEnc num wtBytes ++ bytesEnc (appendValue (appendKey [] kv.1) kv.2)) b

end Cleanproto.Util

namespace Cleanproto.Util

open Cleanproto

/-- The `ConsumeVarInt32Opt` helper: consume a varint int32 and wrap it in
a fresh pointer, here an `Option`. -/
def ConsumeVarInt32Opt (b : Bytes) (typ : Nat) : Option (Option Int × Bytes) :=
  match consumeVarInt32 b typ with
  | some (v, r) => some (some v, r)
  | none => none

/-- Inner loop of `ConsumeRepeatedCompact`: consume elements from the
packed payload until it is exhausted, collecting them in order. Fuel makes
the recursion structural; every element consumes at least one byte, so a
fuel of one more than the payload length is always enough. -/
def packedLoop (consume : Bytes → Nat → Option (α × Bytes)) (elemTyp : Nat) :
    Nat → Bytes → List α → Option (List α)
  | 0, _, _ => none
  | _ + 1, [], acc => some acc
  | fuel + 1, c :: rest, acc =>
    match consume (c :: rest) elemTyp with
    | some (v, r) => packedLoop consume elemTyp fuel r (acc ++ [v])
    | none => none

/-- The `ConsumeRepeatedCompact` helper of the embedded Go runtime: reject
any wire type other than length delimited (and a length-delimited element
type), then consume the length-prefixed packed payload and parse elements
from it until it is empty. The resulting list replaces the target slice. -/
def ConsumeRepeatedCompact (b : Bytes) (typ : Nat) (elemTyp : Nat)
    (consume : Bytes → Nat → Option (α × Bytes)) : Option (List α × Bytes) :=
  if typ ≠ wtBytes ∨ elemTyp = wtBytes then none
  else
    match consumeLenPrefixed b typ with
    | some (packed, rest) =>
      match packedLoop consume elemTyp (packed.length + 1) packed [] with
      | some items => some (items, rest)
      | none => none
    | none => none

/-- Inner loop of `ConsumeMapEntry` over the entry payload: field 1 sets
the key, field 2 sets the value, anything else is skipped. -/
def mapEntryLoop (consumeK : Bytes → Nat → Option (K × Bytes))
    (consumeV : Bytes → Nat → Option (V × Bytes)) :
    Nat → Bytes → K × V → Option (K × V)
  | 0, _, _ => none
  | _ + 1, [], kv => some kv
  | fuel + 1, c :: rest, kv =>
    match consumeTag (c :: rest) with
    | none => none
    | some (num, t, r) =>
      if num = 1 then
        match consumeK r t with
        | some (k, r2) => mapEntryLoop consumeK consumeV fuel r2 (k, kv.2)
        | none => none
      else if num = 2 then
        match consumeV r t with
        | some (v, r2) => mapEntryLoop consumeK consumeV fuel r2 (kv.1, v)
        | none => none
      else
        match skipFieldValue r t with
        | some r2 => mapEntryLoop consumeK consumeV fuel r2 kv
        | none => none

/-- The `ConsumeMapEntry` helper of the embedded Go runtime: reject any
wire type other than length delimited, consume the entry sub-message, run
the entry loop starting from the zero key and zero value, and assign the
resulting binding into the map. -/
def ConsumeMapEntry [DecidableEq K] [Inhabited K] [Inhabited V]
    (b : Bytes) (typ : Nat) (m : List (K × V))
    (consumeK : Bytes → Nat → Option (K × Bytes))
    (consumeV : Bytes → Nat → Option (V × Bytes)) :
    Option (List (K × V) × Bytes) :=
  if typ ≠ wtBytes then none
  else
    match consumeMessage b typ with
    | some (entry, rest) =>
      match mapEntryLoop consumeK consumeV (entry.length + 1) entry (default, default) with
      | some (k, v) => some (mapInsert m k v, rest)
      | none => none
    | none => none

end Cleanproto.Util

namespace Cleanproto

/-- Modelled from the spec: the decode loop of the generated Go decoders,
as shown in the repository README. The loop consumes a tag, dispatches on
the field number through the message-specific handler (whose default case
skips unknown fields), fails the whole decode on any error, and returns
the accumulated message when the input is exhausted. Fuel makes the
recursion structural; every iteration consumes at least the tag byte. -/
def msgLoop (handle : Nat → Nat → Bytes → St → Option (Bytes × St)) :
    Nat → Bytes → St → Option St
  | 0, _, _ => none
  | _ + 1, [], st => some st
  | fuel + 1, c :: rest, st =>
    match consumeTag (c :: rest) with
    | none => none
    | some (num, typ, b1) =>
      match handle num typ b1 st with
      | none => none
      | some (b2, st2) => msgLoop handle fuel b2 st2

end Cleanproto

namespace Cleanproto.Util

open Cleanproto

/-- The `AppendFieldDecorator` helper: fix the field number of a field
appender. -/
def AppendFieldDecorator (appendField : Bytes → α → Nat → Bytes) (num : Nat) :
    Bytes → α → Bytes :=
  fun b v => appendField b v num

/-- The `AppendCompactDecorator` helper: pass a compact appender through. -/
def AppendCompactDecorator (appendCompact : Bytes → α → Bytes) : Bytes → α → Bytes :=
  fun b v => appendCompact b v

end Cleanproto.Util

namespace Cleanproto

open Cleanproto.Util

/-- The two-field scenario message of the spec, lowered from
proto3 `message S2 (with int32 field number 1 and string field number 2)`. -/
structure ScalarMsg where
  n : Int
  s : Bytes
deriving DecidableEq, Repr

/-- Encoder of `ScalarMsg` as produced by `buildGoEncodeLines`: the int32
field through `AppendInt32Field` at number 1, then the string field
through `AppendStringField` at number 2. -/
def encodeScalarMsg (m : ScalarMsg) : Bytes :=
  AppendStringField (AppendInt32Field [] m.n 1) m.s 2

/-- Decode dispatch of `ScalarMsg` as produced by `buildGoDecodeCases`:
field 1 via `ConsumeVarInt32`, field 2 via `ConsumeString`, unknown
numbers skipped by wire type. -/
def scalarHandle (num typ : Nat) (b : Bytes) (st : ScalarMsg) :
    Option (Bytes × ScalarMsg) :=
  if num = 1 then
    match consumeVarInt32 b typ with
    | some (v, r) => some (r, { st with n := v })
    | none => none
  else if num = 2 then
    match consumeString b typ with
    | some (v, r) => some (r, { st with s := v })
    | none => none
  else
    match skipFieldValue b typ with
    | some r => some (r, st)
    | none => none

/-- Decoder of `ScalarMsg`: the README decode loop over the dispatch. -/
def decodeScalarMsg (b : Bytes) : Option ScalarMsg :=
  msgLoop scalarHandle (b.length + 1) b { n := 0, s := [] }

/-- The packed scenario message of the spec, lowered from proto3
`message S3 (with a packed repeated int32 field number 3)`. -/
structure PackedMsg where
  xs : List Int
deriving DecidableEq, Repr

/-- Encoder of `PackedMsg` as produced by `goEncodePacked`: one packed
block through `AppendRepeatedCompact` with `AppendInt32Compact`. -/
def encodePackedMsg (m : PackedMsg) : Bytes :=
  AppendRepeatedCompact [] m.xs 3 (AppendCompactDecorator AppendInt32Compact)

/-- Decode dispatch of `PackedMsg` as produced by `buildGoDecodeCases` for
a packed repeated scalar: field 3 through `ConsumeRepeatedCompact`, whose
result replaces the slice; unknown numbers skipped. -/
def packedHandle (num typ : Nat) (b : Bytes) (st : PackedMsg) :
    Option (Bytes × PackedMsg) :=
  if num = 3 then
    match ConsumeRepeatedCompact b typ wtVarint consumeVarInt32 with
    | some (items, r) => some (r, { st with xs := items })
    | none => none
  else
    match skipFieldValue b typ with
    | some r => some (r, st)
    | none => none

/-- Decoder of `PackedMsg`. -/
def decodePackedMsg (b : Bytes) : Option PackedMsg :=
  msgLoop packedHandle (b.length + 1) b { xs := [] }

/-- The map scenario field of the spec: a `map(string, int32)` field at
number 4 encoded by `goEncodeMap`, i.e. `AppendMap` with the key appender
decorated at entry field 1 and the value appender at entry field 2. -/
def encodeMapField4 (b : Bytes) (m : List (Bytes × Int)) : Bytes :=
  AppendMap b m 4 (AppendFieldDecorator AppendStringField 1)
    (AppendFieldDecorator AppendInt32Field 2)

/-- Go `time.Time` restricted to the observations the runtime makes of it:
Unix seconds and the nanosecond within the second. -/
structure GoTime where
  sec : Int
  nanos : Int
deriving DecidableEq, Repr

/-- Go `time.Time.IsZero`: the zero time is January 1 of year 1, whose
Unix second count is -62135596800. -/
def goTimeIsZero (t : GoTime) : Bool :=
  t.sec = -62135596800 && t.nanos = 0

/-- The `EncodeTimestamp` helper of the embedded Go runtime: field 1 the
seconds varint (always), field 2 the nanos varint when nonzero, and the
empty string for the zero time. -/
def EncodeTimestamp (t : GoTime) : Bytes :=
  if goTimeIsZero t then []
  else
    tagEnc 1 wtVarint ++ varintEnc (toUint64 t.sec) ++
      (if toInt32 (toUint32 t.nanos) ≠ 0 then tagEnc 2 wtVarint ++ varintEnc (toUint32 t.nanos) else [])

/-- Encoder of the well-known-Timestamp scenario field: a single
non-optional `google.protobuf.Timestamp` field at number 1 with host
native type time, as produced by `goEncodeTimestamp` for unit `wkt`:
guard on `IsZero`, then `AppendBytesField` of `EncodeTimestamp`. -/
def encodeTsWktField1 (b : Bytes) (t : GoTime) : Bytes :=
  if !goTimeIsZero t then AppendBytesField b (EncodeTimestamp t) 1 else b

/-- The integer-backed timestamp scenario message: an Int64 field at
number 2 with host native type time. The time value is carried as its
`UnixMilli` observation. -/
structure TsMsMsg where
  atMs : Int
deriving DecidableEq, Repr

/-- Go `time.Time.IsZero` seen through `UnixMilli`: the zero time has
Unix millisecond count -62135596800000. -/
def goTimeMsIsZero (ms : Int) : Bool :=
  ms = -62135596800000

/-- Modelled from the spec: the fixed unit convention of integer-backed
timestamps, seconds for kind Int32 and milliseconds for kind Int64. The
generator consumes this as the TimestampUnit of the field; the code
deriving it from the kind is not part of the sources under src. -/
def timestampUnitOfInt64 : String := "milliseconds"

/-- Encoder of `TsMsMsg` as produced by `goEncodeTimestamp` for a
non-`wkt` single non-optional field: guard on `IsZero`, then
`AppendVarIntField` of `goTimestampValue`, which for unit milliseconds
and kind Int64 is `uint64(t.UnixMilli())`. -/
def encodeTsMsMsg (m : TsMsMsg) : Bytes :=
  if !goTimeMsIsZero m.atMs then AppendVarIntField [] (toUint64 m.atMs) 2 else []

/-- Decode dispatch of `TsMsMsg` as produced by `goDecodeTimestamp` for a
non-`wkt` single field: `ConsumeVarInt64` into a raw value, then
`time.UnixMilli(raw)` observed back as its millisecond count. -/
def tsMsHandle (num typ : Nat) (b : Bytes) (st : TsMsMsg) :
    Option (Bytes × TsMsMsg) :=
  if num = 2 then
    match consumeVarInt64 b typ with
    | some (raw, r) => some (r, { st with atMs := raw })
    | none => none
  else
    match skipFieldValue b typ with
    | some r => some (r, st)
    | none => none

/-- Decoder of `TsMsMsg`; the decode-initial value of a host-time field is
the zero time. -/
def decodeTsMsMsg (b : Bytes) : Option TsMsMsg :=
  msgLoop tsMsHandle (b.length + 1) b { atMs := -62135596800000 }

end Cleanproto

namespace Cleanproto

open Cleanproto.Util

/-- The round-trip representative message, lowered from proto3
`message M1 (int32 field 1, string field 2, optional int32 field 3, packed
repeated int32 field 4, map from string to int32 field 5)`. -/
structure RoundMsg where
  n : Int
  s : Bytes
  o : Option Int
  xs : List Int
  kv : List (Bytes × Int)
deriving DecidableEq, Repr

/-- Encoder of `RoundMsg` as produced by `buildGoEncodeLines`, field by
field in declaration order. -/
def encodeRoundMsg (m : RoundMsg) : Bytes :=
  let b := AppendInt32Field [] m.n 1
  let b := AppendStringField b m.s 2
  let b := AppendInt32FieldOpt b m.o 3
  let b := AppendRepeatedCompact b m.xs 4 (AppendCompactDecorator AppendInt32Compact)
  AppendMap b m.kv 5 (AppendFieldDecorator AppendStringField 1)
    (AppendFieldDecorator AppendInt32Field 2)

/-- Decode dispatch of `RoundMsg` as produced by `buildGoDecodeCases`:
field 1 `ConsumeVarInt32`, field 2 `ConsumeString`, field 3
`ConsumeVarInt32Opt`, field 4 `ConsumeRepeatedCompact` (replacing the
slice), field 5 `ConsumeMapEntry`, and unknown numbers skipped. -/
def roundHandle (num typ : Nat) (b : Bytes) (st : RoundMsg) :
    Option (Bytes × RoundMsg) :=
  if num = 1 then
    match consumeVarInt32 b typ with
    | some (v, r) => some (r, { st with n := v })
    | none => none
  else if num = 2 then
    match consumeString b typ with
    | some (v, r) => some (r, { st with s := v })
    | none => none
  else if num = 3 then
    match ConsumeVarInt32Opt b typ with
    | some (v, r) => some (r, { st with o := v })
    | none => none
  else if num = 4 then
    match ConsumeRepeatedCompact b typ wtVarint consumeVarInt32 with
    | some (items, r) => some (r, { st with xs := items })
    | none => none
  else if num = 5 then
    match ConsumeMapEntry b typ st.kv consumeString consumeVarInt32 with
    | some (m2, r) => some (r, { st with kv := m2 })
    | none => none
  else
    match skipFieldValue b typ with
    | some r => some (r, st)
    | none => none

/-- Decoder of `RoundMsg`, starting from the decode-initial values. -/
def decodeRoundMsg (b : Bytes) : Option RoundMsg :=
  msgLoop roundHandle (b.length + 1) b { n := 0, s := [], o := none, xs := [], kv := [] }

end Cleanproto

namespace Cleanproto.Js

open Cleanproto

/-- Modelled from the spec: the script runtime reader method `int32`,
reading one varint and truncating to a signed 32-bit value. -/
def jsReadInt32 (b : Bytes) : Option (Int × Bytes) :=
  match varintDec b with
  | some (v, r) => some (toInt32 v, r)
  | none => none

/-- Modelled from the spec: the script runtime reader method `skipType`,
skipping one value by wire type. -/
def jsSkipType (b : Bytes) (typ : Nat) : Option Bytes :=
  skipFieldValue b typ

/-- Inner loop of the packed branch emitted by `jsDecodePackedField`:
while the reader is before the block end, push one int32. The block is
presented here as the extracted byte region. -/
def jsReadInt32Block : Nat → Bytes → List Int → Option (List Int)
  | 0, _, _ => none
  | _ + 1, [], acc => some acc
  | fuel + 1, c :: rest, acc =>
    match jsReadInt32 (c :: rest) with
    | some (v, r) => jsReadInt32Block fuel r (acc ++ [v])
    | none => none

/-- Decoder loop of the script-language message generated for the packed
scenario `message S3`, following `buildDecodeMessageFunc` and
`jsDecodePackedField`: on field 3, a length-delimited wire type reads the
whole packed block element by element, any other wire type reads a single
element; unknown fields are skipped via `skipType(tag and 7)`. -/
def jsPackedLoop : Nat → Bytes → List Int → Option (List Int)
  | 0, _, _ => none
  | _ + 1, [], acc => some acc
  | fuel + 1, c :: rest, acc =>
    match varintDec (c :: rest) with
    | none => none
    | some (tag, r) =>
      if tag / 8 = 3 then
        if tag % 8 = wtBytes then
          match varintDec r with
          | none => none
          | some (len, r2) =>
            if len ≤ r2.length then
              match jsReadInt32Block (len + 1) (r2.take len) acc with
              | some acc2 => jsPackedLoop fuel (r2.drop len) acc2
              | none => none
            else none
        else
          match jsReadInt32 r with
          | some (v, r2) => jsPackedLoop fuel r2 (acc ++ [v])
          | none => none
      else
        match jsSkipType r (tag % 8) with
        | some r2 => jsPackedLoop fuel r2 acc
        | none => none

/-- Script-language decoder of the packed scenario message. -/
def jsDecodePackedMsg (b : Bytes) : Option (List Int) :=
  jsPackedLoop (b.length + 1) b []

end Cleanproto.Js

namespace Cleanproto

open Cleanproto.Util Cleanproto.Js Cleanproto.Names

/-- C2: the scalar scenario message with n = 150 and s = "hi" (bytes 68 69)
encodes to 08 96 01 12 02 68 69; with both fields at their defaults it
encodes to the empty byte string; and every non-presence scalar append
helper of the runtime emits nothing for the default value of its kind. -/
theorem c2_scalar_encode_default_suppression :
    encodeScalarMsg { n := 150, s := [104, 105] } = [8, 150, 1, 18, 2, 104, 105] ∧
    encodeScalarMsg { n := 0, s := [] } = [] ∧
    (∀ (b : Bytes) (num : Nat),
      AppendInt32Field b 0 num = b ∧
      AppendStringField b [] num = b ∧
      AppendBytesField b [] num = b ∧
      AppendBoolField b false num = b ∧
      AppendInt64Field b 0 num = b ∧
      AppendUint32Field b 0 num = b ∧
      AppendUint64Field b 0 num = b ∧
      AppendSint32Field b 0 num = b ∧
      AppendSint64Field b 0 num = b ∧
      AppendFixed32Field b 0 num = b ∧
      AppendFixed64Field b 0 num = b ∧
      AppendSfixed32Field b 0 num = b ∧
      AppendSfixed64Field b 0 num = b ∧
      AppendFloat32Field b 0 num = b ∧
      AppendFloat64Field b 0 num = b) := by
  refine ⟨by decide, by decide, fun b num => ?_⟩
  refine ⟨?_, ?_, ?_, ?_, ?_, ?_, ?_, ?_, ?_, ?_, ?_, ?_, ?_, ?_, ?_⟩ <;>
    simp [AppendInt32Field, AppendStringField, AppendBytesField, AppendBoolField,
      AppendInt64Field, AppendUint32Field, AppendUint64Field, AppendSint32Field,
      AppendSint64Field, AppendFixed32Field, AppendFixed64Field, AppendSfixed32Field,
      AppendSfixed64Field, AppendFloat32Field, AppendFloat64Field, f32IsZero, f64IsZero]

/-- C3: the packed scenario field encodes [1, 2, 150] to 1A 04 01 02 96 01
and the generated Go decoder accepts the packed form; but the generated Go
decoder rejects the per-element tagged form 18 01 18 02 18 96 01 with a
wire-type error, while the generated script-language decoder accepts both
forms, so the packed/unpacked accept parity holds only for the script
target. -/
theorem c3_packed_parity_eval :
    encodePackedMsg { xs := [1, 2, 150] } = [26, 4, 1, 2, 150, 1] ∧
    decodePackedMsg [26, 4, 1, 2, 150, 1] = some { xs := [1, 2, 150] } ∧
    decodePackedMsg [24, 1, 24, 2, 24, 150, 1] = none ∧
    jsDecodePackedMsg [26, 4, 1, 2, 150, 1] = some [1, 2, 150] ∧
    jsDecodePackedMsg [24, 1, 24, 2, 24, 150, 1] = some [1, 2, 150] := by
  refine ⟨by decide, by decide, by decide, by decide, by decide⟩

/-- C5 counterexample: the well-known-Timestamp field holding
2024-01-02T03:04:05.000000006Z (Unix seconds 1704164645, nanos 6) does not
encode to the byte string 0A 0C 08 85 8B B2 AD 06 10 06 stated by the
claim (whose length prefix 0x0C does not even match its 8-byte payload). -/
theorem c5_ts_wkt_claim_false :
    encodeTsWktField1 [] { sec := 1704164645, nanos := 6 } ≠
      [10, 12, 8, 133, 139, 178, 173, 6, 16, 6] := by
  decide

/-- C5 amended: the well-known-Timestamp field holding
2024-01-02T03:04:05.000000006Z encodes to 0A 08 08 A5 FA CD AC 06 10 06,
a length-delimited sub-message whose field 1 holds the seconds varint and
whose field 2 holds the nanos varint. -/
theorem c5_ts_wkt_encode :
    encodeTsWktField1 [] { sec := 1704164645, nanos := 6 } =
      [10, 8, 8, 165, 250, 205, 172, 6, 16, 6] ∧
    EncodeTimestamp { sec := 1704164645, nanos := 6 } =
      tagEnc 1 wtVarint ++ varintEnc 1704164645 ++ tagEnc 2 wtVarint ++ varintEnc 6 := by
  refine ⟨by decide, by decide⟩

/-- C6 counterexample: the integer-backed host-time field holding the
millisecond epoch 1700000000123 does not encode to the byte string
10 FB B9 D1 E5 EA 62 stated by the claim (that varint decodes to
3395921665275, not 1700000000123). -/
theorem c6_ts_ms_claim_false :
    encodeTsMsMsg { atMs := 1700000000123 } ≠ [16, 251, 185, 209, 229, 234, 98] := by
  decide

/-- C6 amended: the Int64 host-time field at number 2 holding millisecond
epoch 1700000000123 encodes to the single varint field
10 FB D0 95 FF BC 31, and decoding those bytes reconstructs the same
millisecond epoch. -/
theorem c6_ts_ms_roundtrip :
    encodeTsMsMsg { atMs := 1700000000123 } = [16, 251, 208, 149, 255, 188, 49] ∧
    decodeTsMsMsg [16, 251, 208, 149, 255, 188, 49] = some { atMs := 1700000000123 } := by
  refine ⟨by decide, by decide⟩

/-- C9: the host-language mangler satisfies the underscore cases of the
claim, but on the single-segment camel-case input clientFlipId it returns
ClientFlipId, not the ClientFlipID required by the claim and by the
repository test TestGoNameIDSuffix; the script-language cases hold. -/
theorem c9_name_mangling_eval :
    GoName "item_id" = "ItemID" ∧
    GoName "clientFlipId" = "ClientFlipId" ∧
    GoName "id_value" = "IdValue" ∧
    GoName "id" = "ID" ∧
    JsName "item_id" = "itemId" ∧
    JsName "Id_value" = "idValue" := by
  refine ⟨by decide, by decide, by decide, by decide, by decide, by decide⟩

end Cleanproto

namespace Cleanproto

open Cleanproto.Util

/-- C10: the runtime map-entry consumer rejects any wire type other than
LengthDelimited; whenever it succeeds it performs exactly one map
assignment; and an entry with an empty payload assigns the zero value to
the zero key (shown at the string-to-int32 instantiation that the
generated code uses for a map from string to int32). -/
theorem c10_consume_map_entry :
    (∀ (b : Bytes) (typ : Nat) (m : List (Bytes × Int)), typ ≠ wtBytes →
      ConsumeMapEntry b typ m consumeString consumeVarInt32 = none) ∧
    (∀ (b : Bytes) (typ : Nat) (m : List (Bytes × Int)) (m2 : List (Bytes × Int)) (rest : Bytes),
      ConsumeMapEntry b typ m consumeString consumeVarInt32 = some (m2, rest) →
      ∃ k v, m2 = mapInsert m k v) ∧
    (∀ (r : Bytes) (m : List (Bytes × Int)),
      ConsumeMapEntry (0 :: r) wtBytes m consumeString consumeVarInt32 =
        some (mapInsert m [] 0, r)) := by
  refine ⟨?_, ?_, ?_⟩
  · intro b typ m h
    simp [ConsumeMapEntry, h]
  · intro b typ m m2 rest h
    unfold ConsumeMapEntry at h
    split at h
    · exact absurd h (by simp)
    · split at h
      next entry restb heq =>
        split at h
        next k v hloop =>
          refine ⟨k, v, ?_⟩
          simp only [Option.some.injEq, Prod.mk.injEq] at h
          exact h.1.symm
        · exact absurd h (by simp)
      · exact absurd h (by simp)
  · intro r m
    simp [ConsumeMapEntry, consumeMessage, consumeLenPrefixed, wtBytes, varintDec,
      varintDecAux, mapEntryLoop]
    rfl

/-- Witness for C10: the wire-type rejection and the single-assignment
conclusion hold at concrete inputs. -/
theorem c10_consume_map_entry_witness :
    ConsumeMapEntry ([5] : Bytes) wtVarint ([] : List (Bytes × Int)) consumeString consumeVarInt32 = none ∧
    (∃ k v, ([([], 0)] : List (Bytes × Int)) = mapInsert [] k v) :=
  ⟨c10_consume_map_entry.1 [5] wtVarint [] (by decide),
   c10_consume_map_entry.2.1 [0] wtBytes [] [([], 0)] [] (by decide)⟩

end Cleanproto

namespace Cleanproto.Parser

/-- The wire kinds of the ir package. -/
inductive Kind
  | KindBool | KindInt32 | KindInt64 | KindUint32 | KindUint64
  | KindSint32 | KindSint64 | KindFixed32 | KindFixed64
  | KindSfixed32 | KindSfixed64 | KindFloat | KindDouble
  | KindString | KindBytes | KindMessage | KindEnum
deriving DecidableEq, Repr

open Kind

/-- The `isSupportedGoType` predicate of the parser: per recognised
override value, the allowed kind or well-known message reference; any
other value is unsupported. -/
def isSupportedGoType (kind : Kind) (msgName goType : String) : Bool :=
  if goType = "time.Time" then
    (kind == KindMessage && msgName == "google.protobuf.Timestamp") ||
      kind == KindInt32 || kind == KindInt64
  else if goType = "time.Duration" then
    (kind == KindMessage && msgName == "google.protobuf.Duration") ||
      kind == KindInt32 || kind == KindInt64
  else if goType = "github.com/google/uuid.UUID" then
    kind == KindBytes
  else false

/-- The `isSupportedJSType` predicate of the parser: number and bigint are
the only recognised values, allowed on Int32/Int64 kinds and on the two
well-known message references. -/
def isSupportedJSType (kind : Kind) (msgName jsType : String) : Bool :=
  if jsType ≠ "number" ∧ jsType ≠ "bigint" then false
  else if kind == KindInt32 || kind == KindInt64 then true
  else if kind == KindMessage &&
      (msgName == "google.protobuf.Timestamp" || msgName == "google.protobuf.Duration") then true
  else false

/-- The `validateNativeTypes` check of the parser, `true` meaning the field
is rejected with an error: any override on a map field, a host override
failing `isSupportedGoType`, or a script override failing
`isSupportedJSType`. -/
def validateNativeTypes (kind : Kind) (msgName goType jsType : String) (isMap : Bool) : Bool :=
  if isMap ∧ (goType ≠ "" ∨ jsType ≠ "") then true
  else if goType ≠ "" ∧ ¬ isSupportedGoType kind msgName goType then true
  else if jsType ≠ "" ∧ ¬ isSupportedJSType kind msgName jsType then true
  else false

/-- C7 helper, written from the claim wording: the host-override rows of the validation
table. host=time requires message-ref Timestamp or kind Int32/Int64,
host=duration requires message-ref Duration or kind Int32/Int64,
host=uuid requires kind Bytes. -/
def specHostRow (kind : Kind) (msgName goType : String) : Prop :=
  (goType = "time.Time" ∧
    ((kind = KindMessage ∧ msgName = "google.protobuf.Timestamp") ∨
      kind = KindInt32 ∨ kind = KindInt64)) ∨
  (goType = "time.Duration" ∧
    ((kind = KindMessage ∧ msgName = "google.protobuf.Duration") ∨
      kind = KindInt32 ∨ kind = KindInt64)) ∨
  (goType = "github.com/google/uuid.UUID" ∧ kind = KindBytes)

/-- C7 helper, written from the claim wording: the script-override rows of the validation
table. script=number and script=bigint require kind Int32/Int64 or a
message reference to Timestamp or Duration. -/
def specScriptRow (kind : Kind) (msgName jsType : String) : Prop :=
  (jsType = "number" ∨ jsType = "bigint") ∧
    (kind = KindInt32 ∨ kind = KindInt64 ∨
      (kind = KindMessage ∧
        (msgName = "google.protobuf.Timestamp" ∨ msgName = "google.protobuf.Duration")))

/-- C7 helper, written from the claim wording: a field is accepted when it carries no
override, or when each override present satisfies its row; any override on
a map field is rejected. -/
def specNativeAccepted (kind : Kind) (msgName goType jsType : String) (isMap : Bool) : Prop :=
  (isMap = true → goType = "" ∧ jsType = "") ∧
  (goType ≠ "" → specHostRow kind msgName goType) ∧
  (jsType ≠ "" → specScriptRow kind msgName jsType)

/-- C7: the parser validation rejects a field exactly when a native-type
override violates the claim validation table: an override on a map field,
a host override outside its row (time needs Timestamp ref or Int32/Int64,
duration needs Duration ref or Int32/Int64, uuid needs Bytes), or a script
override outside its row (number/bigint need Int32/Int64 or a
Timestamp/Duration message ref); fields with no override, or overrides
satisfying their rows, are accepted. -/
theorem c7_native_type_validation :
    ∀ (kind : Kind) (msgName goType jsType : String) (isMap : Bool),
      validateNativeTypes kind msgName goType jsType isMap = false ↔
        specNativeAccepted kind msgName goType jsType isMap := by
  intro kind msgName goType jsType isMap
  have hgo : ∀ g, g ≠ "" → (isSupportedGoType kind msgName g = true ↔ specHostRow kind msgName g) := by
    intro g _
    unfold isSupportedGoType specHostRow
    by_cases h1 : g = "time.Time" <;> by_cases h2 : g = "time.Duration" <;>
      by_cases h3 : g = "github.com/google/uuid.UUID" <;>
      simp_all [beq_iff_eq] <;> tauto
  have hjs : ∀ j, j ≠ "" → (isSupportedJSType kind msgName j = true ↔ specScriptRow kind msgName j) := by
    intro j _
    unfold isSupportedJSType specScriptRow
    by_cases h1 : j = "number" <;> by_cases h2 : j = "bigint" <;>
      simp_all [beq_iff_eq] <;> tauto
  unfold validateNativeTypes specNativeAccepted
  by_cases hg : goType = "" <;> by_cases hj : jsType = "" <;> cases isMap <;>
    simp_all <;> tauto

end Cleanproto.Parser

namespace Cleanproto

open Cleanproto.Util

/-- C4: the map scenario field with the single binding from "a" (byte 61)
to 1 encodes to the block 22 05 0A 01 61 10 01, and in general the encoder
emits, per binding in iteration order, a LengthDelimited tag for field 4
followed by the length-prefixed entry sub-message built by the
zero-suppressing key appender at entry field 1 and value appender at entry
field 2. -/
theorem c4_map_encode :
    encodeMapField4 [] [([97], 1)] = [34, 5, 10, 1, 97, 16, 1] ∧
    (∀ (b : Bytes) (m : List (Bytes × Int)),
      encodeMapField4 b m =
        b ++ (m.map (fun kv =>
          tagEnc 4 wtBytes ++
            bytesEnc (AppendInt32Field (AppendStringField [] kv.1 1) kv.2 2))).flatten) := by
  refine ⟨by decide, ?_⟩
  intro b m
  induction m generalizing b with
  | nil => simp [encodeMapField4, AppendMap]
  | cons kv tail ih =>
    have step := ih (b ++ tagEnc 4 wtBytes ++
      bytesEnc (AppendInt32Field (AppendStringField [] kv.1 1) kv.2 2))
    simp only [encodeMapField4, AppendMap, AppendFieldDecorator, List.foldl] at step ⊢
    rw [step]
    simp [List.append_assoc]

end Cleanproto

namespace Cleanproto

/-- The varint encoder never produces the empty string. -/
theorem varintEncAux_ne_nil (fuel v : Nat) : varintEncAux fuel v ≠ [] := by
  cases fuel with
  | zero => simp [varintEncAux]
  | succ f =>
    unfold varintEncAux
    split <;> simp

/-- The varint encoder never produces the empty string. -/
theorem varintEnc_ne_nil (v : Nat) : varintEnc v ≠ [] :=
  varintEncAux_ne_nil 10 v

/-- Decoding consumes exactly what the encoder produced and returns the
encoded value, for any byte budget and encoder fuel covering the value. -/
theorem varintDecAux_enc (j : Nat) :
    ∀ (ke v : Nat) (r : Bytes), v < 2 * 128 ^ j → j + 1 ≤ ke →
      varintDecAux (j + 1) (varintEncAux ke v ++ r) = some (v, r) := by
  induction j with
  | zero =>
    intro ke v r hv hke
    obtain ⟨m, rfl⟩ : ∃ m, ke = m + 1 := ⟨ke - 1, by omega⟩
    simp only [pow_zero, mul_one] at hv
    unfold varintEncAux
    rw [if_pos (by omega)]
    simp [varintDecAux, show v ≤ 1 by omega]
  | succ j ih =>
    intro ke v r hv hke
    obtain ⟨m, rfl⟩ : ∃ m, ke = m + 1 := ⟨ke - 1, by omega⟩
    unfold varintEncAux
    by_cases hsmall : v < 128
    · rw [if_pos hsmall]
      show varintDecAux (j + 2) (v :: r) = some (v, r)
      unfold varintDecAux
      rw [if_pos hsmall]
    · rw [if_neg hsmall]
      show varintDecAux (j + 2) ((v % 128 + 128) :: (varintEncAux m (v / 128) ++ r)) = some (v, r)
      unfold varintDecAux
      rw [if_neg (by omega)]
      have hdiv : v / 128 < 2 * 128 ^ j := by
        rw [Nat.div_lt_iff_lt_mul (by omega : 0 < 128)]
        calc v < 2 * 128 ^ (j + 1) := hv
        _ = 2 * 128 ^ j * 128 := by ring
      rw [ih m (v / 128) r hdiv (by omega)]
      simp only [Option.some.injEq, Prod.mk.injEq]
      refine ⟨by omega, trivial⟩

/-- Decoding consumes exactly what `varintEnc` produced, for every
unsigned 64-bit value. -/
theorem varintDec_enc (v : Nat) (r : Bytes) (hv : v < 18446744073709551616) :
    varintDec (varintEnc v ++ r) = some (v, r) := by
  have h : v < 2 * 128 ^ 9 := by
    have : (2 * 128 ^ 9 : Nat) = 18446744073709551616 := by norm_num
    omega
  exact varintDecAux_enc 9 10 v r h (by omega)

/-- A successful varint decode consumes at least one byte. -/
theorem varintDecAux_shrink :
    ∀ (k : Nat) (b : Bytes) (v : Nat) (r : Bytes),
      varintDecAux k b = some (v, r) → r.length < b.length := by
  intro k
  induction k with
  | zero => intro b v r h; cases b <;> simp [varintDecAux] at h
  | succ k ih =>
    intro b v r h
    match k, b with
    | _, [] => simp [varintDecAux] at h
    | 0, c :: rest =>
      unfold varintDecAux at h
      split at h
      · simp only [Option.some.injEq, Prod.mk.injEq] at h
        obtain ⟨h1, h2⟩ := h
        subst h2
        simp
      · exact absurd h (by simp)
    | k + 1, c :: rest =>
      unfold varintDecAux at h
      split at h
      · simp only [Option.some.injEq, Prod.mk.injEq] at h
        obtain ⟨h1, h2⟩ := h
        subst h2
        simp
      · split at h
        next v2 r2 heq =>
          simp only [Option.some.injEq, Prod.mk.injEq] at h
          obtain ⟨h1, h2⟩ := h
          subst h2
          have := ih rest v2 r2 heq
          simp only [List.length_cons]
          omega
        · exact absurd h (by simp)

/-- A successful varint decode consumes at least one byte. -/
theorem varintDec_shrink (b : Bytes) (v : Nat) (r : Bytes)
    (h : varintDec b = some (v, r)) : r.length < b.length :=
  varintDecAux_shrink 10 b v r h

/-- A successful tag decode consumes at least one byte. -/
theorem consumeTag_shrink (b : Bytes) (num typ : Nat) (r : Bytes)
    (h : consumeTag b = some (num, typ, r)) : r.length < b.length := by
  unfold consumeTag at h
  split at h
  next t r2 heq =>
    simp only [Option.some.injEq, Prod.mk.injEq] at h
    exact h.2.2 ▸ varintDec_shrink b t r2 heq
  · exact absurd h (by simp)

end Cleanproto

namespace Cleanproto

/-- Exact consumption of a tag: parsing the emitted tag bytes recovers the
field number and wire type and leaves the rest untouched. -/
theorem consumeTag_enc (num typ : Nat) (r : Bytes) (htyp : typ < 8)
    (hnum : num < 536870912) :
    consumeTag (tagEnc num typ ++ r) = some (num, typ, r) := by
  unfold consumeTag tagEnc
  rw [varintDec_enc (num * 8 + typ) r (by omega)]
  show some ((num * 8 + typ) / 8, (num * 8 + typ) % 8, r) = some (num, typ, r)
  have h1 : (num * 8 + typ) / 8 = num := by omega
  have h2 : (num * 8 + typ) % 8 = typ := by omega
  rw [h1, h2]

/-- Exact consumption of a length-prefixed block. -/
theorem consumeLenPrefixed_enc (p : Bytes) (r : Bytes)
    (hp : p.length < 18446744073709551616) :
    consumeLenPrefixed (bytesEnc p ++ r) wtBytes = some (p, r) := by
  unfold consumeLenPrefixed bytesEnc
  rw [if_neg (by simp)]
  rw [List.append_assoc, varintDec_enc p.length (p ++ r) hp]
  show (if p.length ≤ (p ++ r).length then some ((p ++ r).take p.length, (p ++ r).drop p.length)
    else none) = some (p, r)
  rw [if_pos (by simp)]
  rw [List.take_left, List.drop_left]

/-- Exact consumption of a varint int32 payload. -/
theorem consumeVarInt32_enc (v : Nat) (r : Bytes) (hv : v < 18446744073709551616) :
    consumeVarInt32 (varintEnc v ++ r) wtVarint = some (toInt32 v, r) := by
  unfold consumeVarInt32
  rw [if_neg (by simp)]
  rw [varintDec_enc v r hv]

/-- Exact consumption of a varint int64 payload. -/
theorem consumeVarInt64_enc (v : Nat) (r : Bytes) (hv : v < 18446744073709551616) :
    consumeVarInt64 (varintEnc v ++ r) wtVarint = some (toInt64 v, r) := by
  unfold consumeVarInt64
  rw [if_neg (by simp)]
  rw [varintDec_enc v r hv]

/-- A successful length-prefixed consumption stays within the input. -/
theorem consumeLenPrefixed_shrink (b : Bytes) (typ : Nat) (p r : Bytes)
    (h : consumeLenPrefixed b typ = some (p, r)) : r.length ≤ b.length := by
  unfold consumeLenPrefixed at h
  split at h
  · exact absurd h (by simp)
  · split at h
    next len r2 heq =>
      split at h
      · simp only [Option.some.injEq, Prod.mk.injEq] at h
        obtain ⟨h1, h2⟩ := h
        subst h2
        have := varintDec_shrink b len r2 heq
        simp only [List.length_drop]
        omega
      · exact absurd h (by simp)
    · exact absurd h (by simp)

/-- A successful int32 consumption stays within the input. -/
theorem consumeVarInt32_shrink (b : Bytes) (typ : Nat) (v : Int) (r : Bytes)
    (h : consumeVarInt32 b typ = some (v, r)) : r.length ≤ b.length := by
  unfold consumeVarInt32 at h
  split at h
  · exact absurd h (by simp)
  · split at h
    next v2 r2 heq =>
      simp only [Option.some.injEq, Prod.mk.injEq] at h
      obtain ⟨h1, h2⟩ := h
      subst h2
      exact le_of_lt (varintDec_shrink b v2 r2 heq)
    · exact absurd h (by simp)

/-- A successful int64 consumption stays within the input. -/
theorem consumeVarInt64_shrink (b : Bytes) (typ : Nat) (v : Int) (r : Bytes)
    (h : consumeVarInt64 b typ = some (v, r)) : r.length ≤ b.length := by
  unfold consumeVarInt64 at h
  split at h
  · exact absurd h (by simp)
  · split at h
    next v2 r2 heq =>
      simp only [Option.some.injEq, Prod.mk.injEq] at h
      obtain ⟨h1, h2⟩ := h
      subst h2
      exact le_of_lt (varintDec_shrink b v2 r2 heq)
    · exact absurd h (by simp)

/-- A successful skip stays within the input. -/
theorem skipFieldValue_shrink (b : Bytes) (typ : Nat) (r : Bytes)
    (h : skipFieldValue b typ = some r) : r.length ≤ b.length := by
  unfold skipFieldValue at h
  split_ifs at h
  · split at h
    next v r2 heq =>
      simp only [Option.some.injEq] at h
      subst h
      exact le_of_lt (varintDec_shrink b v r2 heq)
    · exact absurd h (by simp)
  · simp only [Option.some.injEq] at h
    subst h
    simp
  · split at h
    next len r2 heq =>
      split at h
      · simp only [Option.some.injEq] at h
        subst h
        have := varintDec_shrink b len r2 heq
        simp only [List.length_drop]
        omega
      · exact absurd h (by simp)
    · exact absurd h (by simp)
  · simp only [Option.some.injEq] at h
    subst h
    simp

end Cleanproto

namespace Cleanproto

/-- A handler is shrinking when on success its remaining input is no
longer than its input; every generated dispatch case has this property. -/
def HandlerShrinks (handle : Nat → Nat → Bytes → St → Option (Bytes × St)) : Prop :=
  ∀ num typ b st b2 st2, handle num typ b st = some (b2, st2) → b2.length ≤ b.length

/-- One unfolding of the decode loop on a nonempty input. -/
theorem msgLoop_cons_eq (handle : Nat → Nat → Bytes → St → Option (Bytes × St))
    (fuel : Nat) (b : Bytes) (st : St) (hb : b ≠ []) :
    msgLoop handle (fuel + 1) b st =
      match consumeTag b with
      | none => none
      | some (num, typ, b1) =>
        match handle num typ b1 st with
        | none => none
        | some (b2, st2) => msgLoop handle fuel b2 st2 := by
  cases b with
  | nil => exact absurd rfl hb
  | cons c tl => rfl

/-- Extra fuel beyond the input length does not change the decode loop. -/
theorem msgLoop_fuel_add (handle : Nat → Nat → Bytes → St → Option (Bytes × St))
    (hsh : HandlerShrinks handle) :
    ∀ (fuel : Nat) (extra : Nat) (b : Bytes) (st : St), b.length < fuel →
      msgLoop handle (fuel + extra) b st = msgLoop handle fuel b st := by
  intro fuel
  induction fuel with
  | zero => intro extra b st h; omega
  | succ f ih =>
    intro extra b st h
    cases b with
    | nil =>
      have heq : f + 1 + extra = (f + extra) + 1 := by omega
      rw [heq]
      rfl
    | cons c rest =>
      have heq : f + 1 + extra = (f + extra) + 1 := by omega
      rw [heq, msgLoop_cons_eq handle (f + extra) (c :: rest) st (by simp),
        msgLoop_cons_eq handle f (c :: rest) st (by simp)]
      cases htag : consumeTag (c :: rest) with
      | none => rfl
      | some v =>
        obtain ⟨num, typ, b1⟩ := v
        show (match handle num typ b1 st with
          | none => none
          | some (b2, st2) => msgLoop handle (f + extra) b2 st2) =
          (match handle num typ b1 st with
          | none => none
          | some (b2, st2) => msgLoop handle f b2 st2)
        cases hh : handle num typ b1 st with
        | none => rfl
        | some w =>
          obtain ⟨b2, st2⟩ := w
          have h1 := consumeTag_shrink _ _ _ _ htag
          have h2 := hsh _ _ _ _ _ _ hh
          have h3 : (c :: rest).length = rest.length + 1 := by simp
          exact ih extra b2 st2 (by omega)

/-- The decode loop run with its canonical fuel, one more than the number
of input bytes. -/
def msgRun (handle : Nat → Nat → Bytes → St → Option (Bytes × St)) (b : Bytes) (st : St) :
    Option St :=
  msgLoop handle (b.length + 1) b st

/-- Any sufficient fuel computes the canonical run. -/
theorem msgLoop_suffices (handle : Nat → Nat → Bytes → St → Option (Bytes × St))
    (hsh : HandlerShrinks handle) (fuel : Nat) (b : Bytes) (st : St)
    (h : b.length < fuel) : msgLoop handle fuel b st = msgRun handle b st := by
  unfold msgRun
  have heq : fuel = (b.length + 1) + (fuel - b.length - 1) := by omega
  rw [heq, msgLoop_fuel_add handle hsh (b.length + 1) (fuel - b.length - 1) b st (by omega)]

/-- The canonical run on the empty input returns the current state. -/
theorem msgRun_nil (handle : Nat → Nat → Bytes → St → Option (Bytes × St)) (st : St) :
    msgRun handle [] st = some st :=
  rfl

/-- Processing one leading wire item: when the handler consumes some
prefix of the remaining input, the run continues on what the handler
leaves, from the state it produces. -/
theorem msgRun_cons (handle : Nat → Nat → Bytes → St → Option (Bytes × St))
    (hsh : HandlerShrinks handle) (num typ : Nat) (payload rest rest2 : Bytes)
    (st st2 : St) (htyp : typ < 8) (hnum : num < 536870912)
    (hhandle : handle num typ (payload ++ rest) st = some (rest2, st2)) :
    msgRun handle (tagEnc num typ ++ (payload ++ rest)) st = msgRun handle rest2 st2 := by
  have h4 : 1 ≤ (tagEnc num typ).length := by
    cases he : tagEnc num typ with
    | nil => exact absurd he (varintEnc_ne_nil _)
    | cons a b => simp
  show msgLoop handle ((tagEnc num typ ++ (payload ++ rest)).length + 1) _ st = _
  rw [msgLoop_cons_eq handle _ _ st (by simp [tagEnc, varintEnc_ne_nil])]
  rw [consumeTag_enc num typ (payload ++ rest) htyp hnum]
  show (match handle num typ (payload ++ rest) st with
    | none => none
    | some (b2, stx) =>
      msgLoop handle (tagEnc num typ ++ (payload ++ rest)).length b2 stx) = _
  rw [hhandle]
  have h2 := hsh _ _ _ _ _ _ hhandle
  refine msgLoop_suffices handle hsh _ rest2 st2 ?_
  simp only [List.length_append] at h2 ⊢
  omega

/-- Processing one leading wire item whose handler call fails: the whole
run fails. -/
theorem msgRun_cons_none (handle : Nat → Nat → Bytes → St → Option (Bytes × St))
    (num typ : Nat) (payload rest : Bytes) (st : St) (htyp : typ < 8)
    (hnum : num < 536870912)
    (hhandle : handle num typ (payload ++ rest) st = none) :
    msgRun handle (tagEnc num typ ++ (payload ++ rest)) st = none := by
  have h4 : 1 ≤ (tagEnc num typ).length := by
    cases he : tagEnc num typ with
    | nil => exact absurd he (varintEnc_ne_nil _)
    | cons a b => simp
  show msgLoop handle ((tagEnc num typ ++ (payload ++ rest)).length + 1) _ st = _
  rw [msgLoop_cons_eq handle _ _ st (by simp [tagEnc, varintEnc_ne_nil])]
  rw [consumeTag_enc num typ (payload ++ rest) htyp hnum]
  show (match handle num typ (payload ++ rest) st with
    | none => none
    | some (b2, stx) =>
      msgLoop handle (tagEnc num typ ++ (payload ++ rest)).length b2 stx) = none
  rw [hhandle]

end Cleanproto

namespace Cleanproto

open Cleanproto.Util

/-- A successful optional int32 consumption stays within the input. -/
theorem ConsumeVarInt32Opt_shrink (b : Bytes) (typ : Nat) (v : Option Int) (r : Bytes)
    (h : ConsumeVarInt32Opt b typ = some (v, r)) : r.length ≤ b.length := by
  unfold ConsumeVarInt32Opt at h
  split at h
  next v2 r2 heq =>
    simp only [Option.some.injEq, Prod.mk.injEq] at h
    obtain ⟨h1, h2⟩ := h
    subst h2
    exact consumeVarInt32_shrink b typ v2 r2 heq
  · exact absurd h (by simp)

/-- A successful packed-repeated consumption stays within the input. -/
theorem ConsumeRepeatedCompact_shrink (b : Bytes) (typ elemTyp : Nat)
    (consume : Bytes → Nat → Option (α × Bytes)) (items : List α) (r : Bytes)
    (h : ConsumeRepeatedCompact b typ elemTyp consume = some (items, r)) :
    r.length ≤ b.length := by
  unfold ConsumeRepeatedCompact at h
  split at h
  · exact absurd h (by simp)
  · split at h
    next packed rest heq =>
      split at h
      next items2 hloop =>
        simp only [Option.some.injEq, Prod.mk.injEq] at h
        obtain ⟨h1, h2⟩ := h
        subst h2
        exact consumeLenPrefixed_shrink b typ packed rest heq
      · exact absurd h (by simp)
    · exact absurd h (by simp)

/-- A successful map-entry consumption stays within the input. -/
theorem ConsumeMapEntry_shrink [DecidableEq K] [Inhabited K] [Inhabited V]
    (b : Bytes) (typ : Nat) (m : List (K × V))
    (consumeK : Bytes → Nat → Option (K × Bytes))
    (consumeV : Bytes → Nat → Option (V × Bytes)) (m2 : List (K × V)) (r : Bytes)
    (h : ConsumeMapEntry b typ m consumeK consumeV = some (m2, r)) :
    r.length ≤ b.length := by
  unfold ConsumeMapEntry at h
  split at h
  · exact absurd h (by simp)
  · split at h
    next entry rest heq =>
      split at h
      next k v hloop =>
        simp only [Option.some.injEq, Prod.mk.injEq] at h
        obtain ⟨h1, h2⟩ := h
        subst h2
        exact consumeLenPrefixed_shrink b typ entry rest heq
      · exact absurd h (by simp)
    · exact absurd h (by simp)

/-- The scalar-message dispatch is shrinking. -/
theorem scalarHandle_shrinks : HandlerShrinks scalarHandle := by
  intro num typ b st b2 st2 h
  unfold scalarHandle at h
  split_ifs at h
  · split at h
    next v r heq =>
      simp only [Option.some.injEq, Prod.mk.injEq] at h
      obtain ⟨h1, h2⟩ := h
      subst h1
      exact consumeVarInt32_shrink _ _ _ _ heq
    · exact absurd h (by simp)
  · split at h
    next v r heq =>
      simp only [Option.some.injEq, Prod.mk.injEq] at h
      obtain ⟨h1, h2⟩ := h
      subst h1
      exact consumeLenPrefixed_shrink _ _ _ _ heq
    · exact absurd h (by simp)
  · split at h
    next r heq =>
      simp only [Option.some.injEq, Prod.mk.injEq] at h
      obtain ⟨h1, h2⟩ := h
      subst h1
      exact skipFieldValue_shrink _ _ _ heq
    · exact absurd h (by simp)

/-- The round-trip-message dispatch is shrinking. -/
theorem roundHandle_shrinks : HandlerShrinks roundHandle := by
  intro num typ b st b2 st2 h
  unfold roundHandle at h
  split_ifs at h <;>
    first
    | (split at h
       next v r heq =>
         simp only [Option.some.injEq, Prod.mk.injEq] at h
         obtain ⟨h1, h2⟩ := h
         subst h1
         first
         | exact consumeVarInt32_shrink _ _ _ _ heq
         | exact consumeLenPrefixed_shrink _ _ _ _ heq
         | exact ConsumeVarInt32Opt_shrink _ _ _ _ heq
         | exact ConsumeRepeatedCompact_shrink _ _ _ _ _ _ heq
         | exact ConsumeMapEntry_shrink _ _ _ _ _ _ _ heq
       case _ => exact absurd h (by simp))
    | (split at h
       next r heq =>
         simp only [Option.some.injEq, Prod.mk.injEq] at h
         obtain ⟨h1, h2⟩ := h
         subst h1
         exact skipFieldValue_shrink _ _ _ heq
       case _ => exact absurd h (by simp))

end Cleanproto

namespace Cleanproto

open Cleanproto.Util

/-- One wire-format value of any of the four valid wire types. -/
inductive WireVal where
  | vint (v : Nat)
  | fix32 (v : Nat)
  | fix64 (v : Nat)
  | ld (p : Bytes)
deriving DecidableEq, Repr

/-- The wire type announced in the tag of a value. -/
def WireVal.wireType : WireVal → Nat
  | .vint _ => wtVarint
  | .fix64 _ => wtFixed64
  | .ld _ => wtBytes
  | .fix32 _ => wtFixed32

/-- The payload bytes of a value. -/
def WireVal.payload : WireVal → Bytes
  | .vint v => varintEnc v
  | .fix64 v => fixed64Enc v
  | .ld p => bytesEnc p
  | .fix32 v => fixed32Enc v

/-- Well-formedness of a value: varints fit in 64 bits and block lengths
fit in the length varint. -/
def WireVal.wf : WireVal → Prop
  | .vint v => v < 18446744073709551616
  | .ld p => p.length < 18446744073709551616
  | .fix32 _ => True
  | .fix64 _ => True

instance WireVal.wfDecidable : ∀ v : WireVal, Decidable v.wf
  | .vint v => inferInstanceAs (Decidable (v < 18446744073709551616))
  | .ld p => inferInstanceAs (Decidable (p.length < 18446744073709551616))
  | .fix32 _ => inferInstanceAs (Decidable True)
  | .fix64 _ => inferInstanceAs (Decidable True)

/-- One field occurrence in a wire stream: a field number with a value. -/
structure WireItem where
  num : Nat
  val : WireVal
deriving DecidableEq, Repr

/-- The serialized bytes of one field occurrence: tag then payload. -/
def WireItem.bytes (it : WireItem) : Bytes :=
  tagEnc it.num it.val.wireType ++ it.val.payload

/-- Well-formedness of a field occurrence: a legal field number and a
well-formed value. -/
def WireItem.wf (it : WireItem) : Prop :=
  1 ≤ it.num ∧ it.num < 536870912 ∧ it.val.wf

instance (it : WireItem) : Decidable it.wf :=
  inferInstanceAs (Decidable (_ ∧ _ ∧ _))

/-- Serialization of a whole stream of field occurrences. -/
def serializeItems (xs : List WireItem) : Bytes :=
  (xs.map WireItem.bytes).flatten

/-- The wire type of a value is one of the four valid ones, all below 8. -/
theorem WireVal.wireType_lt (v : WireVal) : v.wireType < 8 := by
  cases v <;> simp [wireType, wtVarint, wtFixed32, wtFixed64, wtBytes]

/-- Skipping consumes exactly the payload of a well-formed value. -/
theorem skipFieldValue_payload (v : WireVal) (rest : Bytes) (hv : v.wf) :
    skipFieldValue (v.payload ++ rest) v.wireType = some rest := by
  cases v with
  | vint v =>
    simp only [WireVal.payload, WireVal.wireType]
    unfold skipFieldValue
    rw [if_pos rfl, varintDec_enc v rest hv]
  | fix64 v =>
    simp only [WireVal.payload, WireVal.wireType]
    unfold skipFieldValue
    rw [if_neg (by simp [wtFixed64, wtVarint]), if_pos rfl]
    have hlen : (fixed64Enc v).length = 8 := by simp [fixed64Enc, fixed32Enc]
    rw [if_pos (by simp [hlen]), ← hlen, List.drop_left]
  | ld p =>
    simp only [WireVal.payload, WireVal.wireType]
    unfold skipFieldValue
    rw [if_neg (by simp [wtBytes, wtVarint]), if_neg (by simp [wtBytes, wtFixed64]),
      if_pos rfl]
    unfold bytesEnc
    rw [List.append_assoc, varintDec_enc p.length (p ++ rest) hv]
    show (if p.length ≤ (p ++ rest).length then some ((p ++ rest).drop p.length) else none) =
      some rest
    rw [if_pos (by simp), List.drop_left]
  | fix32 v =>
    simp only [WireVal.payload, WireVal.wireType]
    unfold skipFieldValue
    rw [if_neg (by simp [wtFixed32, wtVarint]), if_neg (by simp [wtFixed32, wtFixed64]),
      if_neg (by simp [wtFixed32, wtBytes]), if_pos rfl]
    have hlen : (fixed32Enc v).length = 4 := by simp [fixed32Enc]
    rw [if_pos (by simp [hlen]), ← hlen, List.drop_left]

end Cleanproto

namespace Cleanproto

/-- Item-level semantics of the scalar-message decoder: field 1 accepts a
varint and stores its int32 truncation, field 2 accepts a length-delimited
block and stores it, any other field number is skipped, and a declared
field carrying the wrong wire type is a decode error. -/
def scalarStep (it : WireItem) (st : ScalarMsg) : Option ScalarMsg :=
  if it.num = 1 then
    match it.val with
    | .vint v => some { st with n := toInt32 v }
    | _ => none
  else if it.num = 2 then
    match it.val with
    | .ld p => some { st with s := p }
    | _ => none
  else some st

/-- Item-level semantics of a whole stream. -/
def scalarSteps : List WireItem → ScalarMsg → Option ScalarMsg
  | [], st => some st
  | it :: tl, st =>
    match scalarStep it st with
    | some st2 => scalarSteps tl st2
    | none => none

/-- The byte-level run over one serialized item agrees with the
item-level semantics. -/
theorem scalarRun_item (it : WireItem) (rest : Bytes) (st : ScalarMsg) (hwf : it.wf) :
    msgRun scalarHandle (it.bytes ++ rest) st =
      match scalarStep it st with
      | some st2 => msgRun scalarHandle rest st2
      | none => none := by
  obtain ⟨h1, h2, h3⟩ := hwf
  obtain ⟨num, val⟩ := it
  simp only [WireItem.bytes, List.append_assoc]
  by_cases hn1 : num = 1
  · cases val with
    | vint v =>
      have hhandle : scalarHandle num wtVarint (varintEnc v ++ rest) st =
          some (rest, { st with n := toInt32 v }) := by
        unfold scalarHandle
        rw [if_pos hn1, consumeVarInt32_enc v rest h3]
      simp only [WireVal.wireType, WireVal.payload]
      rw [msgRun_cons scalarHandle scalarHandle_shrinks num wtVarint (varintEnc v) rest rest
        st { st with n := toInt32 v } (by simp [wtVarint]) h2 hhandle]
      simp [scalarStep, hn1]
    | fix32 v =>
      have hhandle : scalarHandle num wtFixed32 (fixed32Enc v ++ rest) st = none := by
        unfold scalarHandle
        rw [if_pos hn1]
        simp [consumeVarInt32, wtFixed32, wtVarint]
      simp only [WireVal.wireType, WireVal.payload]
      rw [msgRun_cons_none scalarHandle num wtFixed32 _ rest _ (by simp [wtFixed32]) h2 hhandle]
      simp [scalarStep, hn1]
    | fix64 v =>
      have hhandle : scalarHandle num wtFixed64 (fixed64Enc v ++ rest) st = none := by
        unfold scalarHandle
        rw [if_pos hn1]
        simp [consumeVarInt32, wtFixed64, wtVarint]
      simp only [WireVal.wireType, WireVal.payload]
      rw [msgRun_cons_none scalarHandle num wtFixed64 _ rest _ (by simp [wtFixed64]) h2 hhandle]
      simp [scalarStep, hn1]
    | ld p =>
      have hhandle : scalarHandle num wtBytes (bytesEnc p ++ rest) st = none := by
        unfold scalarHandle
        rw [if_pos hn1]
        simp [consumeVarInt32, wtBytes, wtVarint]
      simp only [WireVal.wireType, WireVal.payload]
      rw [msgRun_cons_none scalarHandle num wtBytes _ rest _ (by simp [wtBytes]) h2 hhandle]
      simp [scalarStep, hn1]
  · by_cases hn2 : num = 2
    · cases val with
      | ld p =>
        have hhandle : scalarHandle num wtBytes (bytesEnc p ++ rest) st =
            some (rest, { st with s := p }) := by
          unfold scalarHandle
          rw [if_neg hn1, if_pos hn2]
          unfold consumeString
          rw [consumeLenPrefixed_enc p rest h3]
        simp only [WireVal.wireType, WireVal.payload]
        rw [msgRun_cons scalarHandle scalarHandle_shrinks num wtBytes (bytesEnc p) rest rest
          st { st with s := p } (by simp [wtBytes]) h2 hhandle]
        simp [scalarStep, hn1, hn2]
      | vint v =>
        have hhandle : scalarHandle num wtVarint (varintEnc v ++ rest) st = none := by
          unfold scalarHandle
          rw [if_neg hn1, if_pos hn2]
          simp [consumeString, consumeLenPrefixed, wtVarint, wtBytes]
        simp only [WireVal.wireType, WireVal.payload]
        rw [msgRun_cons_none scalarHandle num wtVarint _ rest _ (by simp [wtVarint]) h2 hhandle]
        simp [scalarStep, hn1, hn2]
      | fix32 v =>
        have hhandle : scalarHandle num wtFixed32 (fixed32Enc v ++ rest) st = none := by
          unfold scalarHandle
          rw [if_neg hn1, if_pos hn2]
          simp [consumeString, consumeLenPrefixed, wtFixed32, wtBytes]
        simp only [WireVal.wireType, WireVal.payload]
        rw [msgRun_cons_none scalarHandle num wtFixed32 _ rest _ (by simp [wtFixed32]) h2 hhandle]
        simp [scalarStep, hn1, hn2]
      | fix64 v =>
        have hhandle : scalarHandle num wtFixed64 (fixed64Enc v ++ rest) st = none := by
          unfold scalarHandle
          rw [if_neg hn1, if_pos hn2]
          simp [consumeString, consumeLenPrefixed, wtFixed64, wtBytes]
        simp only [WireVal.wireType, WireVal.payload]
        rw [msgRun_cons_none scalarHandle num wtFixed64 _ rest _ (by simp [wtFixed64]) h2 hhandle]
        simp [scalarStep, hn1, hn2]
    · have hhandle : scalarHandle num val.wireType (val.payload ++ rest) st =
          some (rest, st) := by
        unfold scalarHandle
        rw [if_neg hn1, if_neg hn2, skipFieldValue_payload val rest h3]
      rw [msgRun_cons scalarHandle scalarHandle_shrinks num val.wireType val.payload rest rest
        st st (WireVal.wireType_lt _) h2 hhandle]
      simp [scalarStep, hn1, hn2]

/-- The byte-level run over a serialized stream agrees with the item-level
semantics. -/
theorem scalarRun_items (xs : List WireItem) :
    ∀ st : ScalarMsg, (∀ it ∈ xs, it.wf) →
      msgRun scalarHandle (serializeItems xs) st = scalarSteps xs st := by
  induction xs with
  | nil => intro st _; rfl
  | cons it tl ih =>
    intro st hwf
    have hser : serializeItems (it :: tl) = it.bytes ++ serializeItems tl := by
      simp [serializeItems]
    rw [hser, scalarRun_item it (serializeItems tl) st (hwf it (by simp))]
    cases hs : scalarStep it st with
    | none => simp [scalarSteps, hs]
    | some st2 =>
      show msgRun scalarHandle (serializeItems tl) st2 = scalarSteps (it :: tl) st
      rw [ih st2 (fun x hx => hwf x (by simp [hx]))]
      simp [scalarSteps, hs]

/-- Unknown items are identities of the item-level semantics, so a stream
and its restriction to declared field numbers decode alike. -/
theorem scalarSteps_filter (xs : List WireItem) :
    ∀ st : ScalarMsg,
      scalarSteps xs st = scalarSteps (xs.filter fun it => it.num == 1 || it.num == 2) st := by
  induction xs with
  | nil => intro st; rfl
  | cons it tl ih =>
    intro st
    by_cases hdecl : it.num = 1 ∨ it.num = 2
    · have hf : (it :: tl).filter (fun it => it.num == 1 || it.num == 2) =
        it :: tl.filter (fun it => it.num == 1 || it.num == 2) := by
        rcases hdecl with h | h <;> simp [List.filter_cons, h]
      rw [hf]
      show (match scalarStep it st with
        | some st2 => scalarSteps tl st2
        | none => none) =
        (match scalarStep it st with
        | some st2 => scalarSteps (tl.filter fun it => it.num == 1 || it.num == 2) st2
        | none => none)
      cases hs : scalarStep it st with
      | none => rfl
      | some st2 => exact ih st2
    · push_neg at hdecl
      have hf : (it :: tl).filter (fun it => it.num == 1 || it.num == 2) =
          tl.filter (fun it => it.num == 1 || it.num == 2) := by
        simp [List.filter_cons, hdecl.1, hdecl.2]
      have hstep : scalarStep it st = some st := by
        simp [scalarStep, hdecl.1, hdecl.2]
      rw [hf]
      show (match scalarStep it st with
        | some st2 => scalarSteps tl st2
        | none => none) = _
      rw [hstep]
      exact ih st

end Cleanproto

namespace Cleanproto

/-- C8: for any well-formed stream of field occurrences, decoding the
serialized stream with the generated scalar-message decoder gives the same
message as decoding the stream with the undeclared field numbers removed;
occurrences of unknown numbers, whatever valid wire type they carry, are
skipped by wire type and not retained. -/
theorem c8_unknown_field_tolerance (xs : List WireItem) (m : ScalarMsg)
    (hwf : ∀ it ∈ xs, it.wf)
    (h : decodeScalarMsg (serializeItems (xs.filter fun it => it.num == 1 || it.num == 2)) =
      some m) :
    decodeScalarMsg (serializeItems xs) = some m := by
  show msgRun scalarHandle (serializeItems xs) { n := 0, s := [] } = some m
  rw [scalarRun_items xs _ hwf, scalarSteps_filter xs]
  have h2 : msgRun scalarHandle
      (serializeItems (xs.filter fun it => it.num == 1 || it.num == 2)) { n := 0, s := [] } =
      some m := h
  rw [scalarRun_items _ _ (fun it hit => hwf it (List.mem_of_mem_filter hit))] at h2
  exact h2

/-- Witness for C8: a stream declaring n = 150 and s = "hi" among unknown
fields of all four valid wire types decodes to the same message as the
stripped stream. -/
theorem c8_unknown_field_tolerance_witness :
    decodeScalarMsg (serializeItems
      [⟨3, .vint 7⟩, ⟨1, .vint 150⟩, ⟨4, .fix32 9⟩, ⟨2, .ld [104, 105]⟩,
        ⟨5, .ld [1, 2, 3]⟩, ⟨6, .fix64 1⟩]) = some { n := 150, s := [104, 105] } :=
  c8_unknown_field_tolerance
    [⟨3, .vint 7⟩, ⟨1, .vint 150⟩, ⟨4, .fix32 9⟩, ⟨2, .ld [104, 105]⟩,
      ⟨5, .ld [1, 2, 3]⟩, ⟨6, .fix64 1⟩]
    { n := 150, s := [104, 105] } (by decide) (by decide)

end Cleanproto

namespace Cleanproto

open Cleanproto.Util

/-- The signed 32-bit range of the Go `int32` type. -/
def int32Range (i : Int) : Prop :=
  -2147483648 ≤ i ∧ i < 2147483648

instance (i : Int) : Decidable (int32Range i) :=
  inferInstanceAs (Decidable (_ ∧ _))

/-- The Go conversion to `uint32` lands below 2^32. -/
theorem toUint32_lt (i : Int) : toUint32 i < 4294967296 := by
  unfold toUint32
  omega

/-- Going to `uint32` and reading back as `int32` is the identity on the
32-bit range. -/
theorem toInt32_toUint32 (i : Int) (h : int32Range i) : toInt32 (toUint32 i) = i := by
  obtain ⟨h1, h2⟩ := h
  unfold toInt32 toUint32
  dsimp only
  split_ifs <;> omega

/-- The conversion to `uint32` hits zero only at zero. -/
theorem toUint32_eq_zero (i : Int) (h : int32Range i) : toUint32 i = 0 ↔ i = 0 := by
  obtain ⟨h1, h2⟩ := h
  unfold toUint32
  omega

/-- The varint encoder emits at most one byte more than its fuel. -/
theorem varintEncAux_length_le (fuel : Nat) : ∀ v, (varintEncAux fuel v).length ≤ fuel + 1 := by
  induction fuel with
  | zero => intro v; simp [varintEncAux]
  | succ f ih =>
    intro v
    unfold varintEncAux
    split
    · simp
    · have := ih (v / 128)
      simp only [List.length_cons]
      omega

/-- The varint encoder needs at most k bytes for values below 128^k. -/
theorem varintEncAux_length_of_lt (k : Nat) :
    ∀ (fuel v : Nat), v < 128 ^ k → 1 ≤ k → k ≤ fuel + 1 → (varintEncAux fuel v).length ≤ k := by
  induction k with
  | zero => intro fuel v hv h1 _; omega
  | succ k ih =>
    intro fuel v hv _ hk
    cases fuel with
    | zero =>
      simp only [varintEncAux, List.length_cons, List.length_nil]
      omega
    | succ f =>
      unfold varintEncAux
      split
      · rename_i hlt
        have hone : ([v] : Bytes).length = 1 := rfl
        omega
      · rename_i hge
        by_cases hk0 : k = 0
        · subst hk0
          have hv1 : v < 128 := by simpa using hv
          omega
        · have hdiv : v / 128 < 128 ^ k := by
            rw [Nat.div_lt_iff_lt_mul (by omega : 0 < 128)]
            calc v < 128 ^ (k + 1) := hv
            _ = 128 ^ k * 128 := by ring
          have := ih f (v / 128) hdiv (by omega) (by omega)
          simp only [List.length_cons]
          omega

/-- Five bytes suffice for the varint of any value below 2^32. -/
theorem varintEnc_length_le_five (v : Nat) (hv : v < 4294967296) :
    (varintEnc v).length ≤ 5 := by
  have h : v < 128 ^ 5 := by
    have : (128 ^ 5 : Nat) = 34359738368 := by norm_num
    omega
  exact varintEncAux_length_of_lt 5 10 v h (by omega) (by omega)

/-- Eleven bytes bound every varint this encoder can emit. -/
theorem varintEnc_length_le_eleven (v : Nat) : (varintEnc v).length ≤ 11 :=
  varintEncAux_length_le 10 v

/-- Factoring the int32 field appender over its target buffer. -/
theorem AppendInt32Field_factor (b : Bytes) (v : Int) (num : Nat) :
    AppendInt32Field b v num = b ++ AppendInt32Field [] v num := by
  unfold AppendInt32Field
  split <;> simp

/-- Factoring the string field appender over its target buffer. -/
theorem AppendStringField_factor (b : Bytes) (v : Bytes) (num : Nat) :
    AppendStringField b v num = b ++ AppendStringField [] v num := by
  unfold AppendStringField
  split <;> simp

/-- Factoring the optional int32 field appender over its target buffer. -/
theorem AppendInt32FieldOpt_factor (b : Bytes) (v : Option Int) (num : Nat) :
    AppendInt32FieldOpt b v num = b ++ AppendInt32FieldOpt [] v num := by
  cases v with
  | none => simp [AppendInt32FieldOpt]
  | some w =>
    show (if w = 0 then b else b ++ tagEnc num wtVarint ++ varintEnc (toUint32 w)) =
      b ++ (if w = 0 then ([] : Bytes) else [] ++ tagEnc num wtVarint ++ varintEnc (toUint32 w))
    split_ifs <;> simp

/-- Factoring the packed repeated appender over its target buffer. -/
theorem AppendRepeatedCompact_factor (b : Bytes) (values : List α) (num : Nat)
    (appendValue : Bytes → α → Bytes) :
    AppendRepeatedCompact b values num appendValue =
      b ++ AppendRepeatedCompact [] values num appendValue := by
  unfold AppendRepeatedCompact
  dsimp only
  split_ifs <;> simp

/-- The per-entry block decomposition of the map appender. -/
theorem AppendMap_factor (b : Bytes) (m : List (K × V)) (num : Nat)
    (appendKey : Bytes → K → Bytes) (appendValue : Bytes → V → Bytes) :
    AppendMap b m num appendKey appendValue =
      b ++ (m.map (fun kv =>
        tagEnc num wtBytes ++ bytesEnc (appendValue (appendKey [] kv.1) kv.2))).flatten := by
  induction m generalizing b with
  | nil => simp [AppendMap]
  | cons kv tail ih =>
    have step := ih (b ++ tagEnc num wtBytes ++ bytesEnc (appendValue (appendKey [] kv.1) kv.2))
    simp only [AppendMap, List.foldl] at step ⊢
    rw [step]
    simp [List.append_assoc]

/-- The packed payload of an int32 slice is the concatenation of the
per-element varints. -/
theorem packedInt32_payload (values : List Int) :
    values.foldl (AppendCompactDecorator AppendInt32Compact) [] =
      (values.map (fun u => varintEnc (toUint32 u))).flatten := by
  have hgen : ∀ (vs : List Int) (acc : Bytes),
      vs.foldl (AppendCompactDecorator AppendInt32Compact) acc =
        acc ++ (vs.map (fun u => varintEnc (toUint32 u))).flatten := by
    intro vs
    induction vs with
    | nil => intro acc; simp
    | cons u tl ih =>
      intro acc
      simp only [List.foldl, AppendCompactDecorator, AppendInt32Compact]
      rw [ih (acc ++ varintEnc (toUint32 u))]
      simp
  have := hgen values []
  simpa using this

/-- Inserting a fresh key appends the binding. -/
theorem mapInsert_fresh [DecidableEq K] (m : List (K × V)) (k : K) (v : V)
    (h : ∀ p ∈ m, p.1 ≠ k) : mapInsert m k v = m ++ [(k, v)] := by
  unfold mapInsert
  rw [if_neg]
  intro hany
  rw [List.any_eq_true] at hany
  obtain ⟨p, hp, hpk⟩ := hany
  exact h p hp (by simpa using hpk)

end Cleanproto

namespace Cleanproto

open Cleanproto.Util

/-- Exact consumption with nothing following the varint. -/
theorem consumeVarInt32_enc_nil (u : Nat) (hu : u < 18446744073709551616) :
    consumeVarInt32 (varintEnc u) wtVarint = some (toInt32 u, []) := by
  have h := consumeVarInt32_enc u [] hu
  simpa using h

/-- Exact consumption with nothing following the block. -/
theorem consumeString_enc_nil (p : Bytes) (hp : p.length < 18446744073709551616) :
    consumeString (bytesEnc p) wtBytes = some (p, []) := by
  have h := consumeLenPrefixed_enc p [] hp
  unfold consumeString
  simpa using h

/-- Exact consumption of a string with a continuation. -/
theorem consumeString_enc (p r : Bytes) (hp : p.length < 18446744073709551616) :
    consumeString (bytesEnc p ++ r) wtBytes = some (p, r) := by
  unfold consumeString
  exact consumeLenPrefixed_enc p r hp

/-- The varint of any value takes at least one byte. -/
theorem varintEnc_length_pos (v : Nat) : 1 ≤ (varintEnc v).length := by
  cases he : varintEnc v with
  | nil => exact absurd he (varintEnc_ne_nil v)
  | cons a b => simp

/-- A length-prefixed block takes at least one byte. -/
theorem bytesEnc_length_pos (p : Bytes) : 1 ≤ (bytesEnc p).length := by
  have := varintEnc_length_pos p.length
  simp only [bytesEnc, List.length_append]
  omega

/-- The entry loop on the exhausted payload yields the accumulated pair. -/
theorem mapEntryLoop_nil (cs : Bytes → Nat → Option (K × Bytes))
    (cv : Bytes → Nat → Option (V × Bytes)) (fuel : Nat) (kv : K × V) (hf : 1 ≤ fuel) :
    mapEntryLoop cs cv fuel [] kv = some kv := by
  obtain ⟨f, rfl⟩ : ∃ f, fuel = f + 1 := ⟨fuel - 1, by omega⟩
  rfl

/-- One unfolding of the entry loop on a nonempty payload. -/
theorem mapEntryLoop_step (cs : Bytes → Nat → Option (K × Bytes))
    (cv : Bytes → Nat → Option (V × Bytes)) (fuel : Nat) (b : Bytes) (kv : K × V)
    (hb : b ≠ []) (hf : 1 ≤ fuel) :
    mapEntryLoop cs cv fuel b kv =
      match consumeTag b with
      | none => none
      | some (num, t, r) =>
        if num = 1 then
          match cs r t with
          | some (k2, r2) => mapEntryLoop cs cv (fuel - 1) r2 (k2, kv.2)
          | none => none
        else if num = 2 then
          match cv r t with
          | some (v2, r2) => mapEntryLoop cs cv (fuel - 1) r2 (kv.1, v2)
          | none => none
        else
          match skipFieldValue r t with
          | some r2 => mapEntryLoop cs cv (fuel - 1) r2 kv
          | none => none := by
  obtain ⟨f, rfl⟩ : ∃ f, fuel = f + 1 := ⟨fuel - 1, by omega⟩
  simp only [Nat.add_sub_cancel]
  cases b with
  | nil => exact absurd rfl hb
  | cons c rest => rfl

/-- The entry payload built by the generated map encoder parses back to
exactly its key and its value seen through the int32 conversions: an empty
key or zero value is simply absent and the zero defaults stand in. -/
theorem mapEntry_payload_loop (k : Bytes) (v : Int)
    (hk : k.length < 18446744073709551616) :
    mapEntryLoop consumeString consumeVarInt32
      ((AppendInt32Field (AppendStringField [] k 1) v 2).length + 1)
      (AppendInt32Field (AppendStringField [] k 1) v 2) (([] : Bytes), (0 : Int)) =
      some (k, toInt32 (toUint32 v)) := by
  by_cases hk0 : k = []
  · by_cases hv0 : v = 0
    · subst hk0
      subst hv0
      simp [AppendStringField, AppendInt32Field, mapEntryLoop, toUint32, toInt32]
    · subst hk0
      have hpay : AppendInt32Field (AppendStringField [] [] 1) v 2 =
          tagEnc 2 wtVarint ++ varintEnc (toUint32 v) := by
        simp [AppendStringField, AppendInt32Field, hv0]
      rw [hpay]
      rw [mapEntryLoop_step consumeString consumeVarInt32 _ _ _
        (by simp [tagEnc, varintEnc_ne_nil]) (by omega)]
      rw [consumeTag_enc 2 wtVarint _ (by simp [wtVarint]) (by omega)]
      dsimp only
      rw [if_neg (by omega), if_pos rfl,
        consumeVarInt32_enc_nil (toUint32 v) (by have := toUint32_lt v; omega)]
      dsimp only
      refine mapEntryLoop_nil _ _ _ _ ?_
      simp only [tagEnc, List.length_append]
      have := varintEnc_length_pos (2 * 8 + wtVarint)
      omega
  · by_cases hv0 : v = 0
    · subst hv0
      have hpay : AppendInt32Field (AppendStringField [] k 1) 0 2 =
          tagEnc 1 wtBytes ++ bytesEnc k := by
        simp [AppendStringField, AppendInt32Field, hk0]
      rw [hpay]
      rw [mapEntryLoop_step consumeString consumeVarInt32 _ _ _
        (by simp [tagEnc, varintEnc_ne_nil]) (by omega)]
      rw [consumeTag_enc 1 wtBytes _ (by simp [wtBytes]) (by omega)]
      dsimp only
      rw [if_pos rfl, consumeString_enc_nil k hk]
      dsimp only
      rw [mapEntryLoop_nil _ _ _ _ (by
        simp only [tagEnc, List.length_append]
        have := varintEnc_length_pos (1 * 8 + wtBytes)
        omega)]
      simp [toUint32, toInt32]
    · have hpay : AppendInt32Field (AppendStringField [] k 1) v 2 =
          tagEnc 1 wtBytes ++ (bytesEnc k ++ (tagEnc 2 wtVarint ++ varintEnc (toUint32 v))) := by
        simp [AppendStringField, AppendInt32Field, hk0, hv0]
      rw [hpay]
      rw [mapEntryLoop_step consumeString consumeVarInt32 _ _ _
        (by simp [tagEnc, varintEnc_ne_nil]) (by omega)]
      rw [consumeTag_enc 1 wtBytes _ (by simp [wtBytes]) (by omega)]
      dsimp only
      rw [if_pos rfl, consumeString_enc k _ hk]
      dsimp only
      rw [mapEntryLoop_step consumeString consumeVarInt32 _ _ _
        (by simp [tagEnc, varintEnc_ne_nil]) (by
          simp only [tagEnc, List.length_append]
          have := varintEnc_length_pos (1 * 8 + wtBytes)
          omega)]
      rw [consumeTag_enc 2 wtVarint _ (by simp [wtVarint]) (by omega)]
      dsimp only
      rw [if_neg (by omega), if_pos rfl,
        consumeVarInt32_enc_nil (toUint32 v) (by have := toUint32_lt v; omega)]
      dsimp only
      refine mapEntryLoop_nil _ _ _ _ ?_
      have h1 := bytesEnc_length_pos k
      have h2 := varintEnc_length_pos (1 * 8 + wtBytes)
      simp only [tagEnc, List.length_append]
      omega

end Cleanproto

namespace Cleanproto

open Cleanproto.Util

/-- The packed loop on the exhausted payload yields the accumulator. -/
theorem packedLoop_nil (consume : Bytes → Nat → Option (α × Bytes)) (elemTyp fuel : Nat)
    (acc : List α) (hf : 1 ≤ fuel) : packedLoop consume elemTyp fuel [] acc = some acc := by
  obtain ⟨f, rfl⟩ : ∃ f, fuel = f + 1 := ⟨fuel - 1, by omega⟩
  rfl

/-- One unfolding of the packed loop on a nonempty payload. -/
theorem packedLoop_step (consume : Bytes → Nat → Option (α × Bytes)) (elemTyp fuel : Nat)
    (b : Bytes) (acc : List α) (hb : b ≠ []) (hf : 1 ≤ fuel) :
    packedLoop consume elemTyp fuel b acc =
      match consume b elemTyp with
      | some (v, r) => packedLoop consume elemTyp (fuel - 1) r (acc ++ [v])
      | none => none := by
  obtain ⟨f, rfl⟩ : ∃ f, fuel = f + 1 := ⟨fuel - 1, by omega⟩
  simp only [Nat.add_sub_cancel]
  cases b with
  | nil => exact absurd rfl hb
  | cons c rest => rfl

/-- The concatenated per-element varints of a packed int32 payload. -/
def packedInt32Enc (values : List Int) : Bytes :=
  (values.map (fun u => varintEnc (toUint32 u))).flatten

/-- The packed loop decodes the concatenated varints element by element. -/
theorem packedLoop_enc (values : List Int) :
    ∀ (acc : List Int) (fuel : Nat), (packedInt32Enc values).length < fuel →
      packedLoop consumeVarInt32 wtVarint fuel (packedInt32Enc values) acc =
        some (acc ++ values.map (fun u => toInt32 (toUint32 u))) := by
  induction values with
  | nil =>
    intro acc fuel hf
    simp only [packedInt32Enc, List.map_nil, List.flatten_nil]
    rw [packedLoop_nil consumeVarInt32 wtVarint fuel acc (by simpa [packedInt32Enc] using hf)]
    simp
  | cons u tl ih =>
    intro acc fuel hf
    have hdec : packedInt32Enc (u :: tl) = varintEnc (toUint32 u) ++ packedInt32Enc tl := by
      simp [packedInt32Enc]
    rw [hdec] at hf ⊢
    have hne : varintEnc (toUint32 u) ++ packedInt32Enc tl ≠ [] := by
      have := varintEnc_length_pos (toUint32 u)
      intro hcontra
      have : (varintEnc (toUint32 u) ++ packedInt32Enc tl).length = 0 := by rw [hcontra]; rfl
      simp only [List.length_append] at this
      omega
    rw [packedLoop_step consumeVarInt32 wtVarint fuel _ acc hne
      (by simp only [List.length_append] at hf; omega)]
    rw [consumeVarInt32_enc (toUint32 u) (packedInt32Enc tl) (by have := toUint32_lt u; omega)]
    dsimp only
    have hlen1 := varintEnc_length_pos (toUint32 u)
    rw [ih (acc ++ [toInt32 (toUint32 u)]) (fuel - 1)
      (by simp only [List.length_append] at hf; omega)]
    simp

/-- The generated packed consumer on the encoder output: the whole block
replaces the slice. -/
theorem ConsumeRepeatedCompact_enc (values : List Int) (rest : Bytes)
    (hlen : (packedInt32Enc values).length < 18446744073709551616) :
    ConsumeRepeatedCompact (bytesEnc (packedInt32Enc values) ++ rest) wtBytes wtVarint
      consumeVarInt32 = some (values.map (fun u => toInt32 (toUint32 u)), rest) := by
  unfold ConsumeRepeatedCompact
  rw [if_neg (by simp [wtBytes, wtVarint])]
  rw [consumeLenPrefixed_enc (packedInt32Enc values) rest hlen]
  dsimp only
  rw [packedLoop_enc values [] ((packedInt32Enc values).length + 1) (by omega)]
  simp

/-- The packed payload length is at most five bytes per element. -/
theorem packedInt32Enc_length_le (values : List Int) :
    (packedInt32Enc values).length ≤ 5 * values.length := by
  induction values with
  | nil => simp [packedInt32Enc]
  | cons u tl ih =>
    have h5 : (varintEnc (toUint32 u)).length ≤ 5 :=
      varintEnc_length_le_five (toUint32 u) (toUint32_lt u)
    simp only [packedInt32Enc, List.map_cons, List.flatten_cons, List.length_append,
      List.length_cons] at ih ⊢
    have : ((tl.map fun u => varintEnc (toUint32 u))).flatten.length ≤ 5 * tl.length := ih
    omega

/-- The entry payload length is bounded by the key length plus the varint
overhead. -/
theorem mapEntry_payload_length_le (k : Bytes) (v : Int) :
    (AppendInt32Field (AppendStringField [] k 1) v 2).length ≤ k.length + 40 := by
  have h1 : (AppendStringField [] k 1).length ≤ k.length + 23 := by
    unfold AppendStringField
    split
    · simp
    · have := varintEnc_length_le_eleven (1 * 8 + wtBytes)
      have := varintEnc_length_le_eleven k.length
      simp only [tagEnc, bytesEnc, List.nil_append, List.length_append]
      omega
  rw [AppendInt32Field_factor]
  have h2 : (AppendInt32Field [] v 2).length ≤ 17 := by
    unfold AppendInt32Field
    split
    · simp
    · have := varintEnc_length_le_eleven (2 * 8 + wtVarint)
      have h5 := varintEnc_length_le_five (toUint32 v) (toUint32_lt v)
      simp only [tagEnc, List.nil_append, List.length_append]
      omega
  simp only [List.length_append]
  omega

end Cleanproto

namespace Cleanproto

open Cleanproto.Util

/-- Absorbing the int32 field 1 block of the round-trip message. -/
theorem roundRun_field1 (n : Int) (rest : Bytes) (st : RoundMsg)
    (hr : int32Range n) (h0 : st.n = 0) :
    msgRun roundHandle (AppendInt32Field [] n 1 ++ rest) st =
      msgRun roundHandle rest { st with n := n } := by
  by_cases hn : n = 0
  · subst hn
    have hst : ({ st with n := (0 : Int) } : RoundMsg) = st := by
      cases st
      simp only at h0
      simp [h0]
    rw [hst]
    simp [AppendInt32Field]
  · have henc : AppendInt32Field [] n 1 = tagEnc 1 wtVarint ++ varintEnc (toUint32 n) := by
      simp [AppendInt32Field, hn]
    have hhandle : roundHandle 1 wtVarint (varintEnc (toUint32 n) ++ rest) st =
        some (rest, { st with n := n }) := by
      unfold roundHandle
      rw [if_pos rfl, consumeVarInt32_enc (toUint32 n) rest (by have := toUint32_lt n; omega)]
      rw [toInt32_toUint32 n hr]
    rw [henc, List.append_assoc]
    exact msgRun_cons roundHandle roundHandle_shrinks 1 wtVarint _ rest rest st
      { st with n := n } (by simp [wtVarint]) (by omega) hhandle

/-- Absorbing the string field 2 block of the round-trip message. -/
theorem roundRun_field2 (s : Bytes) (rest : Bytes) (st : RoundMsg)
    (hlen : s.length < 18446744073709551616) (h0 : st.s = []) :
    msgRun roundHandle (AppendStringField [] s 2 ++ rest) st =
      msgRun roundHandle rest { st with s := s } := by
  by_cases hs : s = []
  · subst hs
    have hst : ({ st with s := ([] : Bytes) } : RoundMsg) = st := by
      cases st
      simp only at h0
      simp [h0]
    rw [hst]
    simp [AppendStringField]
  · have henc : AppendStringField [] s 2 = tagEnc 2 wtBytes ++ bytesEnc s := by
      simp [AppendStringField, hs]
    have hhandle : roundHandle 2 wtBytes (bytesEnc s ++ rest) st =
        some (rest, { st with s := s }) := by
      unfold roundHandle
      rw [if_neg (by omega), if_pos rfl, consumeString_enc s rest hlen]
    rw [henc, List.append_assoc]
    exact msgRun_cons roundHandle roundHandle_shrinks 2 wtBytes _ rest rest st
      { st with s := s } (by simp [wtBytes]) (by omega) hhandle

/-- Absorbing the optional int32 field 3 block of the round-trip message:
an absent pointer and a pointed-to zero emit nothing and decode to absent;
a nonzero pointed-to value round-trips. -/
theorem roundRun_field3 (o : Option Int) (rest : Bytes) (st : RoundMsg)
    (hr : ∀ w, o = some w → int32Range w) (h0 : st.o = none) :
    msgRun roundHandle (AppendInt32FieldOpt [] o 3 ++ rest) st =
      msgRun roundHandle rest { st with o := if o = some 0 then none else o } := by
  have hstnone : ({ st with o := (none : Option Int) } : RoundMsg) = st := by
    cases st
    simp only at h0
    simp [h0]
  cases o with
  | none =>
    rw [if_neg (by simp)]
    rw [hstnone]
    simp [AppendInt32FieldOpt]
  | some w =>
    by_cases hw : w = 0
    · subst hw
      rw [if_pos rfl, hstnone]
      simp [AppendInt32FieldOpt]
    · rw [if_neg (by simp [hw])]
      have henc : AppendInt32FieldOpt [] (some w) 3 =
          tagEnc 3 wtVarint ++ varintEnc (toUint32 w) := by
        simp [AppendInt32FieldOpt, hw]
      have hhandle : roundHandle 3 wtVarint (varintEnc (toUint32 w) ++ rest) st =
          some (rest, { st with o := some w }) := by
        unfold roundHandle
        rw [if_neg (by omega), if_neg (by omega), if_pos rfl]
        unfold ConsumeVarInt32Opt
        rw [consumeVarInt32_enc (toUint32 w) rest (by have := toUint32_lt w; omega)]
        rw [toInt32_toUint32 w (hr w rfl)]
      rw [henc, List.append_assoc]
      exact msgRun_cons roundHandle roundHandle_shrinks 3 wtVarint _ rest rest st
        { st with o := some w } (by simp [wtVarint]) (by omega) hhandle

/-- Absorbing the packed repeated field 4 block of the round-trip
message. -/
theorem roundRun_field4 (xs : List Int) (rest : Bytes) (st : RoundMsg)
    (hr : ∀ u ∈ xs, int32Range u) (hlen : xs.length < 1152921504606846976)
    (h0 : st.xs = []) :
    msgRun roundHandle
      (AppendRepeatedCompact [] xs 4 (AppendCompactDecorator AppendInt32Compact) ++ rest) st =
      msgRun roundHandle rest { st with xs := xs } := by
  have hmap : xs.map (fun u => toInt32 (toUint32 u)) = xs := by
    conv_rhs => rw [← List.map_id xs]
    refine List.map_congr_left ?_
    intro u hu
    exact toInt32_toUint32 u (hr u hu)
  have hpacklen : (packedInt32Enc xs).length < 18446744073709551616 := by
    have := packedInt32Enc_length_le xs
    omega
  cases hxs : xs with
  | nil =>
    have hst : ({ st with xs := ([] : List Int) } : RoundMsg) = st := by
      cases st
      simp only at h0
      simp [h0]
    rw [hst]
    simp [AppendRepeatedCompact]
  | cons u tl =>
    rw [← hxs]
    have hne : packedInt32Enc xs ≠ [] := by
      rw [hxs]
      have := varintEnc_length_pos (toUint32 u)
      intro hcontra
      have hzero : (packedInt32Enc (u :: tl)).length = 0 := by rw [hcontra]; rfl
      simp only [packedInt32Enc, List.map_cons, List.flatten_cons, List.length_append] at hzero
      omega
    have henc : AppendRepeatedCompact [] xs 4 (AppendCompactDecorator AppendInt32Compact) =
        tagEnc 4 wtBytes ++ bytesEnc (packedInt32Enc xs) := by
      unfold AppendRepeatedCompact
      dsimp only
      rw [packedInt32_payload xs]
      rw [if_neg (by
        show ¬(packedInt32Enc xs).length = 0
        intro hz
        exact hne (List.length_eq_zero.mp hz))]
      simp [packedInt32Enc]
    have hhandle : roundHandle 4 wtBytes (bytesEnc (packedInt32Enc xs) ++ rest) st =
        some (rest, { st with xs := xs }) := by
      unfold roundHandle
      rw [if_neg (by omega), if_neg (by omega), if_neg (by omega), if_pos rfl]
      rw [ConsumeRepeatedCompact_enc xs rest hpacklen]
      rw [hmap]
    rw [henc, List.append_assoc]
    exact msgRun_cons roundHandle roundHandle_shrinks 4 wtBytes _ rest rest st
      { st with xs := xs } (by simp [wtBytes]) (by omega) hhandle

end Cleanproto

namespace Cleanproto

open Cleanproto.Util

/-- The serialized block of one map entry of the round-trip message. -/
def entryBlock (kv : Bytes × Int) : Bytes :=
  tagEnc 5 wtBytes ++ bytesEnc (AppendInt32Field (AppendStringField [] kv.1 1) kv.2 2)

/-- Absorbing the map field 5 blocks of the round-trip message: each entry
is inserted in iteration order, and with all keys fresh the map comes back
in the same order. -/
theorem roundRun_field5 (entries : List (Bytes × Int)) :
    ∀ st : RoundMsg,
      (∀ kv ∈ entries, int32Range kv.2 ∧ kv.1.length < 1152921504606846976) →
      (entries.map Prod.fst).Nodup →
      (∀ kv ∈ entries, ∀ p ∈ st.kv, p.1 ≠ kv.1) →
      msgRun roundHandle (entries.map entryBlock).flatten st =
        some { st with kv := st.kv ++ entries } := by
  induction entries with
  | nil =>
    intro st _ _ _
    have hst : ({ st with kv := st.kv ++ [] } : RoundMsg) = st := by
      cases st
      simp
    rw [hst]
    rfl
  | cons kv tl ih =>
    intro st hwf hnodup hdisj
    obtain ⟨k, v⟩ := kv
    have hkR : k.length < 1152921504606846976 := by simpa using (hwf (k, v) (by simp)).2
    have hvR : int32Range v := by simpa using (hwf (k, v) (by simp)).1
    have hk64 : k.length < 18446744073709551616 := by omega
    have hplen : (AppendInt32Field (AppendStringField [] k 1) v 2).length <
        18446744073709551616 := by
      have := mapEntry_payload_length_le k v
      omega
    have hdec : (((k, v) :: tl).map entryBlock).flatten =
        tagEnc 5 wtBytes ++
          (bytesEnc (AppendInt32Field (AppendStringField [] k 1) v 2) ++
            (tl.map entryBlock).flatten) := by
      simp [entryBlock]
    have hhandle : roundHandle 5 wtBytes
        (bytesEnc (AppendInt32Field (AppendStringField [] k 1) v 2) ++
          (tl.map entryBlock).flatten) st =
        some ((tl.map entryBlock).flatten,
          { st with kv := st.kv ++ [(k, v)] }) := by
      unfold roundHandle
      rw [if_neg (by omega), if_neg (by omega), if_neg (by omega), if_neg (by omega),
        if_pos rfl]
      unfold ConsumeMapEntry
      rw [if_neg (by simp)]
      unfold consumeMessage
      rw [consumeLenPrefixed_enc _ _ hplen]
      dsimp only
      have hd : ((default : Bytes), (default : Int)) = (([] : Bytes), (0 : Int)) := rfl
      rw [hd, mapEntry_payload_loop k v hk64]
      rw [toInt32_toUint32 v hvR]
      dsimp only
      rw [mapInsert_fresh st.kv k v (fun p hp => by
        have := hdisj (k, v) (by simp) p hp
        simpa using this)]
    rw [hdec]
    rw [msgRun_cons roundHandle roundHandle_shrinks 5 wtBytes _ _ _ st
      { st with kv := st.kv ++ [(k, v)] } (by simp [wtBytes]) (by omega) hhandle]
    rw [ih { st with kv := st.kv ++ [(k, v)] }
      (fun x hx => hwf x (by simp [hx]))
      (by simpa using hnodup.of_cons)
      ?_]
    · simp
    · intro kv2 hkv2 p hp
      simp only [List.mem_append, List.mem_singleton] at hp
      rcases hp with hp | hp
      · exact hdisj kv2 (by simp [hkv2]) p hp
      · subst hp
        have hk_notin : k ∉ tl.map Prod.fst := by
          have := hnodup
          simp only [List.map_cons, List.nodup_cons] at this
          exact this.1
        intro hcontra
        apply hk_notin
        have hkk : k = kv2.1 := by simpa using hcontra
        rw [hkk]
        exact List.mem_map_of_mem Prod.fst hkv2

end Cleanproto

namespace Cleanproto

open Cleanproto.Util

/-- Range condition on an optional int32 value. -/
def optInt32Range : Option Int → Prop
  | none => True
  | some w => int32Range w

instance optInt32RangeDecidable : ∀ o : Option Int, Decidable (optInt32Range o)
  | none => inferInstanceAs (Decidable True)
  | some w => inferInstanceAs (Decidable (int32Range w))

/-- Well-formedness of a round-trip message value: every int32 is in
range, lengths fit comfortably below the varint limits, and the map keys
are distinct. -/
def RoundWf (v : RoundMsg) : Prop :=
  int32Range v.n ∧
  v.s.length < 1152921504606846976 ∧
  optInt32Range v.o ∧
  (∀ u ∈ v.xs, int32Range u) ∧
  v.xs.length < 1152921504606846976 ∧
  (∀ kv ∈ v.kv, int32Range kv.2 ∧ kv.1.length < 1152921504606846976) ∧
  (v.kv.map Prod.fst).Nodup

instance (v : RoundMsg) : Decidable (RoundWf v) :=
  inferInstanceAs (Decidable (_ ∧ _ ∧ _ ∧ _ ∧ _ ∧ _ ∧ _))

/-- The canonical form produced by one decode of one encode: a presence
scalar explicitly set to its zero value comes back as absent, everything
else is unchanged. -/
def canonRound (v : RoundMsg) : RoundMsg :=
  { v with o := if v.o = some 0 then none else v.o }

/-- C1 counterexample: the round-trip claim as stated fails for a message
whose optional (presence) int32 field is set to its zero value: the
encoder helper AppendInt32FieldOpt suppresses a pointed-to zero, so the
pointer does not survive, although the field is neither unset nor a
non-presence field. -/
theorem c1_roundtrip_claim_false :
    decodeRoundMsg (encodeRoundMsg { n := 0, s := [], o := some 0, xs := [], kv := [] }) ≠
      some { n := 0, s := [], o := some 0, xs := [], kv := [] } := by
  decide

/-- C1 amended: for every well-formed round-trip message value, decoding
the encoding yields the value up to canonicalisation: map entries come
back in iteration order, unset or default-valued singular scalars come
back as their defaults, and a presence scalar set to zero comes back
absent. -/
theorem c1_roundtrip_amended (v : RoundMsg) (h : RoundWf v) :
    decodeRoundMsg (encodeRoundMsg v) = some (canonRound v) := by
  obtain ⟨h1, h2, h3, h4, h5, h6, h7⟩ := h
  show msgRun roundHandle (encodeRoundMsg v)
    { n := 0, s := [], o := none, xs := [], kv := [] } = some (canonRound v)
  have henc : encodeRoundMsg v =
      AppendInt32Field [] v.n 1 ++ (AppendStringField [] v.s 2 ++
        (AppendInt32FieldOpt [] v.o 3 ++
          (AppendRepeatedCompact [] v.xs 4 (AppendCompactDecorator AppendInt32Compact) ++
            (v.kv.map entryBlock).flatten))) := by
    unfold encodeRoundMsg
    rw [AppendMap_factor, AppendRepeatedCompact_factor, AppendInt32FieldOpt_factor,
      AppendStringField_factor]
    simp [AppendFieldDecorator, List.append_assoc]
    rfl
  rw [henc]
  rw [roundRun_field1 v.n _ _ h1 rfl]
  rw [roundRun_field2 v.s _ _ (by omega) rfl]
  rw [roundRun_field3 v.o _ _ (fun w hw => by rw [hw] at h3; exact h3) rfl]
  rw [roundRun_field4 v.xs _ _ h4 h5 rfl]
  rw [roundRun_field5 v.kv _ h6 h7 (by simp)]
  cases v
  simp [canonRound]

/-- A sample message value exercising every field of `RoundMsg`: a
negative int32, a non-empty string, a set optional field, a packed list
containing a zero and a two-byte varint, and two map entries, one with an
empty key and a zero value. -/
def roundSample : RoundMsg :=
  { n := -3, s := [104, 105], o := some 7, xs := [1, 0, 150], kv := [([97], 1), ([], 0)] }

/-- Witness for C1: the sample value is well formed and round-trips to
its canonical form. -/
theorem c1_roundtrip_amended_witness :
    RoundWf roundSample ∧
    decodeRoundMsg (encodeRoundMsg roundSample) = some (canonRound roundSample) :=
  ⟨by decide, c1_roundtrip_amended roundSample (by decide)⟩

end Cleanproto
